import Mathlib

set_option maxHeartbeats 1000000
set_option maxRecDepth 4000

/-!
Verification development for the pdf_to_excell_convert repository
(src/code_base.py; src/code_gui.py duplicates the same core helpers).

The Python core is shallowly embedded as executable Lean definitions:

* `extract_data_from_pdf` models the function of the same name
  (code_base.py lines 45-92).  A PDF document is a page count together
  with a clipped-text extraction function; a per-field exception raised
  after the page-range check (malformed rectangle, failing text
  extraction, ...) is modelled by that function returning `none`.
* Worksheets are total cell grids with an explicit `maxCol` extent
  (openpyxl's `max_column`); workbooks are title/sheet association lists.
* `write_data_to_sheet`, `get_header_map`, `get_or_create_sheet` and the
  two modes of `main` (update: lines 312-405, create: lines 407-462,
  terminal save: lines 464-478) are embedded structurally.
* Python floats are modelled as exact rationals plus inf, -inf and nan;
  `pyFloat?` models which strings `float(...)` accepts.
-/

namespace PdfExcel

/-! ### Python string primitives -/

/-- The whitespace characters stripped by Python's `str.strip()` (ASCII part). -/
def isPyWS (c : Char) : Bool :=
  c == ' ' || c == '\t' || c == '\n' || c == '\r' || c == '\x0b' || c == '\x0c'

/-- `str.strip()` on a character list: drop whitespace from both ends. -/
def stripList (l : List Char) : List Char :=
  ((l.dropWhile isPyWS).reverse.dropWhile isPyWS).reverse

/-- Python's `s.strip()`. -/
def pyStrip (s : String) : String := String.mk (stripList s.data)

/-- Line-break characters: the ones replaced at code_base.py line 83. -/
def isLB (c : Char) : Bool := c == '\n' || c == '\r'

/-- One character of `text.replace('\n', ' ').replace('\r', ' ')`. -/
def lbToSpace (c : Char) : Char := if isLB c then ' ' else c

/-- `text.replace('\n', ' ').replace('\r', ' ')` (single-char replace is a
character map; the first replace never produces a carriage return). -/
def cleanLineBreaks (s : String) : String := String.mk (s.data.map lbToSpace)

/-- The list does not start with a whitespace character. -/
def headOK : List Char → Bool
  | [] => true
  | c :: _ => !isPyWS c

/-- The string contains no line-break character. -/
def noLineBreak (s : String) : Bool := s.data.all (fun c => !isLB c)

/-- The string has neither leading nor trailing whitespace. -/
def noEdgeWS (s : String) : Bool := headOK s.data && headOK s.data.reverse

/-! ### The field extractor (code_base.py lines 45-92) -/

/-- A clip rectangle `[x0, y0, x1, y1]` from config.json. -/
structure Rect where
  x0 : ℚ
  y0 : ℚ
  x1 : ℚ
  y1 : ℚ
deriving DecidableEq

/-- One entry of `config['extraction_fields']`. -/
structure PdfField where
  name : String
  page : Nat
  rect : Rect

/-- A PDF document as seen by the extractor: a page count and the clipped
text extraction `page.get_text("text", clip=rect)` for an in-range page.
A `none` result models any exception raised between the page-range check
and the assignment (malformed rectangle, extraction failure, ...). -/
structure PdfDoc where
  pageCount : Nat
  clipText : Nat → Rect → Option String

/-- A Python row dictionary: insertion-ordered association list. -/
abbrev DataRow := List (String × String)

/-- Python dictionary lookup `d.get(k)` on an association list. -/
def alookup {α : Type} : List (String × α) → String → Option α
  | [], _ => none
  | (k', x) :: rest, k => if k' = k then some x else alookup rest k

/-- `d[k] = v` on an insertion-ordered dictionary. -/
def dictInsert : List (String × String) → String → String → List (String × String)
  | [], k, v => [(k, v)]
  | (k', v') :: rest, k, v =>
    if k' = k then (k', v) :: rest else (k', v') :: dictInsert rest k v

/-- The value stored for one field descriptor (lines 59-89): empty string
for an out-of-range page, the sentinel for a per-field exception, and
otherwise the stripped text with line breaks replaced by spaces. -/
def extractValue (doc : PdfDoc) (f : PdfField) : String :=
  if doc.pageCount ≤ f.page then ""
  else
    match doc.clipText f.page f.rect with
    | none => "ERROR"
    | some t => cleanLineBreaks (pyStrip t)

/-- One iteration of the field loop: `extracted_data[field['name']] = ...`. -/
def extractField (doc : PdfDoc) (acc : List (String × String)) (f : PdfField) :
    List (String × String) :=
  dictInsert acc f.name (extractValue doc f)

/-- `extract_data_from_pdf` (lines 45-92).  `none` for the document models
`fitz.open` raising, in which case the whole row fails (`return None`). -/
def extract_data_from_pdf (doc : Option PdfDoc) (fields : List PdfField) :
    Option (List (String × String)) :=
  match doc with
  | none => none
  | some d => some (fields.foldl (extractField d) [])

/-! ### String lemmas: cleaned values have no line break and no edge whitespace -/

theorem isPyWS_of_isLB (c : Char) (h : isLB c = true) : isPyWS c = true := by
  simp only [isLB, Bool.or_eq_true, beq_iff_eq] at h
  rcases h with h | h <;> subst h <;> rfl

theorem lbToSpace_of_not_ws (c : Char) (h : isPyWS c = false) : lbToSpace c = c := by
  unfold lbToSpace
  rw [if_neg]
  intro hlb
  rw [isPyWS_of_isLB c hlb] at h
  exact Bool.noConfusion h

theorem isLB_lbToSpace (c : Char) : isLB (lbToSpace c) = false := by
  unfold lbToSpace
  by_cases h : isLB c = true
  · rw [if_pos h]; rfl
  · rw [if_neg h]; exact Bool.of_not_eq_true h

theorem noLineBreak_clean (s : String) : noLineBreak (cleanLineBreaks s) = true := by
  unfold noLineBreak cleanLineBreaks
  rw [List.all_map]
  apply List.all_eq_true.mpr
  intro c _
  simp only [Function.comp_apply, isLB_lbToSpace, Bool.not_false]

theorem headOK_dropWhile (l : List Char) : headOK (l.dropWhile isPyWS) = true := by
  induction l with
  | nil => rfl
  | cons c r ih =>
    rw [List.dropWhile_cons]
    by_cases h : isPyWS c = true
    · rw [if_pos h]; exact ih
    · rw [if_neg h]
      simp only [headOK, Bool.of_not_eq_true h, Bool.not_false]

theorem headOK_append_singleton (xs : List Char) (c : Char) :
    headOK (xs ++ [c]) = (if xs = [] then !isPyWS c else headOK xs) := by
  cases xs <;> simp [headOK]

theorem lastOK_dropWhile (l : List Char) (h : headOK l.reverse = true) :
    headOK (l.dropWhile isPyWS).reverse = true := by
  induction l with
  | nil => rfl
  | cons c r ih =>
    rw [List.dropWhile_cons]
    rcases hr0 : r with _ | ⟨d, r'⟩
    · subst hr0
      by_cases hc : isPyWS c = true
      · rw [if_pos hc]; rfl
      · rw [if_neg hc]
        simpa using h
    · subst hr0
      have hrne : (d :: r').reverse ≠ [] := by simp
      have hhr : headOK ((d :: r').reverse) = true := by
        rw [List.reverse_cons, headOK_append_singleton, if_neg hrne] at h
        exact h
      by_cases hc : isPyWS c = true
      · rw [if_pos hc]
        exact ih hhr
      · rw [if_neg hc, List.reverse_cons, headOK_append_singleton, if_neg hrne]
        exact hhr

theorem headOK_map_lb (l : List Char) (h : headOK l = true) :
    headOK (l.map lbToSpace) = true := by
  cases l with
  | nil => rfl
  | cons c r =>
    simp only [headOK, Bool.not_eq_true'] at h
    simp only [List.map_cons, headOK, lbToSpace_of_not_ws c h, h, Bool.not_false]

theorem noEdgeWS_clean_strip (s : String) :
    noEdgeWS (cleanLineBreaks (pyStrip s)) = true := by
  unfold noEdgeWS cleanLineBreaks pyStrip stripList
  set A : List Char := s.data.dropWhile isPyWS with hA
  set B : List Char := A.reverse.dropWhile isPyWS with hB
  have hBok : headOK B = true := headOK_dropWhile A.reverse
  have hBrev : headOK B.reverse = true := by
    apply lastOK_dropWhile
    rw [List.reverse_reverse]
    exact headOK_dropWhile s.data
  have h1 : headOK (B.reverse.map lbToSpace) = true := headOK_map_lb _ hBrev
  have h2 : headOK ((B.reverse.map lbToSpace).reverse) = true := by
    rw [← List.map_reverse, List.reverse_reverse]
    exact headOK_map_lb _ hBok
  simp only [h1, h2, Bool.and_self]

/-! ### Dictionary lemmas -/

theorem mem_keys_dictInsert (l : List (String × String)) (k v n) :
    n ∈ (dictInsert l k v).map Prod.fst ↔ n = k ∨ n ∈ l.map Prod.fst := by
  induction l with
  | nil => simp [dictInsert]
  | cons p rest ih =>
    rcases p with ⟨k', v'⟩
    simp only [dictInsert]
    by_cases h : k' = k
    · rw [if_pos h]
      subst h
      simp only [List.map_cons, List.mem_cons]
      tauto
    · rw [if_neg h]
      simp only [List.map_cons, List.mem_cons, ih]
      tauto

theorem nodup_keys_dictInsert (l : List (String × String)) (k v)
    (h : (l.map Prod.fst).Nodup) : ((dictInsert l k v).map Prod.fst).Nodup := by
  induction l with
  | nil => simp [dictInsert]
  | cons p rest ih =>
    rcases p with ⟨k', v'⟩
    simp only [List.map_cons, List.nodup_cons] at h
    simp only [dictInsert]
    by_cases hk : k' = k
    · rw [if_pos hk]
      simp only [List.map_cons, List.nodup_cons]
      exact h
    · rw [if_neg hk]
      simp only [List.map_cons, List.nodup_cons]
      refine ⟨?_, ih h.2⟩
      rw [mem_keys_dictInsert]
      rintro (rfl | hm)
      · exact hk rfl
      · exact h.1 hm

theorem alookup_dictInsert_self (l : List (String × String)) (k v) :
    alookup (dictInsert l k v) k = some v := by
  induction l with
  | nil => simp [dictInsert, alookup]
  | cons p rest ih =>
    rcases p with ⟨k', v'⟩
    simp only [dictInsert]
    by_cases h : k' = k
    · rw [if_pos h]
      simp only [alookup]
      rw [if_pos h]
    · rw [if_neg h]
      simp only [alookup]
      rw [if_neg h]
      exact ih

theorem alookup_dictInsert_ne (l : List (String × String)) (k v n) (h : n ≠ k) :
    alookup (dictInsert l k v) n = alookup l n := by
  induction l with
  | nil =>
    simp only [dictInsert, alookup]
    rw [if_neg (fun e => h e.symm)]
  | cons p rest ih =>
    rcases p with ⟨k', v'⟩
    simp only [dictInsert]
    by_cases hk : k' = k
    · rw [if_pos hk]
      have hne : k' ≠ n := by
        rw [hk]
        exact fun e => h e.symm
      simp only [alookup]
      rw [if_neg hne, if_neg hne]
    · rw [if_neg hk]
      simp only [alookup]
      by_cases hn : k' = n
      · rw [if_pos hn, if_pos hn]
      · rw [if_neg hn, if_neg hn]
        exact ih

theorem mem_dictInsert (l : List (String × String)) (k v p)
    (h : p ∈ dictInsert l k v) : p.2 = v ∨ p ∈ l := by
  induction l with
  | nil =>
    simp only [dictInsert, List.mem_singleton] at h
    rw [h]
    exact Or.inl rfl
  | cons q rest ih =>
    rcases q with ⟨k', v'⟩
    simp only [dictInsert] at h
    by_cases hk : k' = k
    · rw [if_pos hk] at h
      rcases List.mem_cons.mp h with h2 | h2
      · rw [h2]
        exact Or.inl rfl
      · exact Or.inr (List.mem_cons_of_mem _ h2)
    · rw [if_neg hk] at h
      rcases List.mem_cons.mp h with h2 | h2
      · rw [h2]
        exact Or.inr (List.mem_cons_self _ _)
      · rcases ih h2 with h' | h'
        · exact Or.inl h'
        · exact Or.inr (List.mem_cons_of_mem _ h')

/-! ### Extraction fold lemmas -/

theorem keys_extract_fold (doc : PdfDoc) (fs : List PdfField) :
    ∀ (acc : List (String × String)) (n : String),
      n ∈ ((fs.foldl (extractField doc) acc).map Prod.fst) ↔
        n ∈ acc.map Prod.fst ∨ n ∈ fs.map PdfField.name := by
  induction fs with
  | nil => intro acc n; simp
  | cons f fs ih =>
    intro acc n
    rw [List.foldl_cons, ih, extractField, mem_keys_dictInsert]
    simp only [List.map_cons, List.mem_cons]
    tauto

theorem nodup_keys_extract_fold (doc : PdfDoc) (fs : List PdfField) :
    ∀ (acc : List (String × String)), (acc.map Prod.fst).Nodup →
      ((fs.foldl (extractField doc) acc).map Prod.fst).Nodup := by
  induction fs with
  | nil => intro acc h; exact h
  | cons f fs ih =>
    intro acc h
    rw [List.foldl_cons]
    exact ih _ (nodup_keys_dictInsert _ _ _ h)

theorem extractValue_clean (doc : PdfDoc) (f : PdfField) :
    noLineBreak (extractValue doc f) = true ∧ noEdgeWS (extractValue doc f) = true := by
  unfold extractValue
  split
  · exact ⟨rfl, rfl⟩
  · split
    · exact ⟨rfl, rfl⟩
    · exact ⟨noLineBreak_clean _, noEdgeWS_clean_strip _⟩

theorem values_extract_fold (doc : PdfDoc) (fs : List PdfField) :
    ∀ (acc : List (String × String)),
      (∀ p ∈ acc, noLineBreak p.2 = true ∧ noEdgeWS p.2 = true) →
      ∀ p ∈ fs.foldl (extractField doc) acc,
        noLineBreak p.2 = true ∧ noEdgeWS p.2 = true := by
  induction fs with
  | nil => intro acc h; exact h
  | cons f fs ih =>
    intro acc h
    rw [List.foldl_cons]
    apply ih
    intro p hp
    rcases mem_dictInsert _ _ _ _ hp with h2 | h2
    · rw [h2]
      exact extractValue_clean doc f
    · exact h p h2

theorem alookup_extract_fold_skip (doc : PdfDoc) (fs : List PdfField) :
    ∀ (acc : List (String × String)) (k : String), k ∉ fs.map PdfField.name →
      alookup (fs.foldl (extractField doc) acc) k = alookup acc k := by
  induction fs with
  | nil => intro acc k _; rfl
  | cons f fs ih =>
    intro acc k hk
    simp only [List.map_cons, List.mem_cons] at hk
    push_neg at hk
    rw [List.foldl_cons, ih _ _ hk.2, extractField, alookup_dictInsert_ne _ _ _ _ hk.1]

/-! ### Claim C8 -/

/-- C8: for every document that opens successfully and every list of field
descriptors, the extraction result has exactly one entry per descriptor
name (its key set is the set of descriptor names, without duplicates), and
every extracted value has all line-break characters replaced by spaces and
no leading or trailing whitespace. -/
theorem extraction_complete_and_clean (doc : PdfDoc) (fields : List PdfField)
    (res : List (String × String))
    (hopen : extract_data_from_pdf (some doc) fields = some res) :
    (∀ n, n ∈ res.map Prod.fst ↔ n ∈ fields.map PdfField.name) ∧
    (res.map Prod.fst).Nodup ∧
    (∀ p ∈ res, noLineBreak p.2 = true ∧ noEdgeWS p.2 = true) := by
  have hres : res = fields.foldl (extractField doc) [] := by
    simpa [extract_data_from_pdf] using hopen.symm
  subst hres
  refine ⟨?_, ?_, ?_⟩
  · intro n
    rw [keys_extract_fold]
    simp
  · exact nodup_keys_extract_fold doc fields [] (by simp)
  · exact values_extract_fold doc fields [] (by simp)

def exRect : Rect := ⟨0, 0, 100, 50⟩

def exDoc : PdfDoc :=
  { pageCount := 1
    clipText := fun p _ => if p = 0 then some "  hola\nmundo  " else none }

def exFields : List PdfField := [⟨"FECHA", 0, exRect⟩, ⟨"BATEA", 3, exRect⟩]

def exRes : List (String × String) := [("FECHA", "hola mundo"), ("BATEA", "")]

theorem extraction_complete_and_clean_witness :
    extract_data_from_pdf (some exDoc) exFields = some exRes ∧
    ((∀ n, n ∈ exRes.map Prod.fst ↔ n ∈ exFields.map PdfField.name) ∧
     (exRes.map Prod.fst).Nodup ∧
     (∀ p ∈ exRes, noLineBreak p.2 = true ∧ noEdgeWS p.2 = true)) :=
  ⟨by decide, extraction_complete_and_clean exDoc exFields exRes (by decide)⟩

/-! ### Claim C9 -/

/-- C9: per-field failures never abort the row.  An out-of-range page
yields the empty string for that field, a per-field exception after the
page check yields the sentinel "ERROR" for that field only, and in both
cases every remaining field still gets an entry in the result. -/
theorem per_field_failures_isolated (doc : PdfDoc) (fs1 fs2 : List PdfField)
    (f : PdfField) (res : List (String × String))
    (hres : extract_data_from_pdf (some doc) (fs1 ++ f :: fs2) = some res)
    (hshadow : f.name ∉ fs2.map PdfField.name) :
    (doc.pageCount ≤ f.page → alookup res f.name = some "") ∧
    (f.page < doc.pageCount → doc.clipText f.page f.rect = none →
      alookup res f.name = some "ERROR") ∧
    (∀ g ∈ fs2, g.name ∈ res.map Prod.fst) := by
  have hres' : res = (fs1 ++ f :: fs2).foldl (extractField doc) [] := by
    simpa [extract_data_from_pdf] using hres.symm
  subst hres'
  rw [List.foldl_append, List.foldl_cons]
  have hlook : ∀ v, extractValue doc f = v →
      alookup
        (fs2.foldl (extractField doc) (extractField doc (fs1.foldl (extractField doc) []) f))
        f.name = some v := by
    intro v hv
    rw [alookup_extract_fold_skip doc fs2 _ _ hshadow, extractField, hv,
      alookup_dictInsert_self]
  refine ⟨?_, ?_, ?_⟩
  · intro hpage
    apply hlook
    unfold extractValue
    rw [if_pos hpage]
  · intro hpage hclip
    apply hlook
    unfold extractValue
    rw [if_neg (by omega), hclip]
  · intro g hg
    rw [keys_extract_fold]
    right
    exact List.mem_map_of_mem PdfField.name hg

def exDoc2 : PdfDoc :=
  { pageCount := 2
    clipText := fun p _ => if p = 0 then some "ok" else none }

def exFieldsC9 : List PdfField :=
  [⟨"A", 0, exRect⟩, ⟨"B", 5, exRect⟩, ⟨"C", 1, exRect⟩, ⟨"D", 0, exRect⟩]

def exResC9 : List (String × String) :=
  [("A", "ok"), ("B", ""), ("C", "ERROR"), ("D", "ok")]

theorem per_field_failures_isolated_witness :
    extract_data_from_pdf (some exDoc2) exFieldsC9 = some exResC9 ∧
    alookup exResC9 "B" = some "" ∧
    alookup exResC9 "C" = some "ERROR" ∧
    "D" ∈ exResC9.map Prod.fst :=
  ⟨by decide,
   (per_field_failures_isolated exDoc2 [⟨"A", 0, exRect⟩]
      [⟨"C", 1, exRect⟩, ⟨"D", 0, exRect⟩] ⟨"B", 5, exRect⟩ exResC9
      (by decide) (by decide)).1 (by decide),
   (per_field_failures_isolated exDoc2 [⟨"A", 0, exRect⟩, ⟨"B", 5, exRect⟩]
      [⟨"D", 0, exRect⟩] ⟨"C", 1, exRect⟩ exResC9
      (by decide) (by decide)).2.1 (by decide) rfl,
   ((per_field_failures_isolated exDoc2 [⟨"A", 0, exRect⟩, ⟨"B", 5, exRect⟩]
      [⟨"D", 0, exRect⟩] ⟨"C", 1, exRect⟩ exResC9
      (by decide) (by decide)).2.2 ⟨"D", 0, exRect⟩ (by simp))⟩

/-! ### Python float coercion (the `float(value_to_write)` call at line 196)

A Python float is modelled as an exact rational (IEEE rounding is not
observable in any claim) or one of the special values inf, -inf, nan.
`pyFloat?` models which strings `float(...)` accepts: optional surrounding
whitespace, an optional sign, then either a decimal literal `digits`,
`digits.digits?`, `.digits` with an optional `e`/`E` exponent, or the
case-insensitive special names. -/

inductive PyFloat where
  | fin (q : ℚ)
  | inf
  | ninf
  | nan
deriving DecidableEq

def digitVal (c : Char) : Nat := c.toNat - '0'.toNat

def digitsToNat (acc : Nat) : List Char → Nat
  | [] => acc
  | c :: r => digitsToNat (acc * 10 + digitVal c) r

/-- Mantissa part: `digits`, `digits.digits?` or `.digits`, returned as an
unreduced numerator/denominator pair (value = n / d) with the unconsumed
rest. -/
def parseUnsigned (cs : List Char) : Option ((Int × Nat) × List Char) :=
  let ds := cs.takeWhile Char.isDigit
  let r1 := cs.dropWhile Char.isDigit
  match r1 with
  | '.' :: r2 =>
    let fs := r2.takeWhile Char.isDigit
    let r3 := r2.dropWhile Char.isDigit
    if ds = [] ∧ fs = [] then none
    else some (((digitsToNat 0 (ds ++ fs) : Int), 10 ^ fs.length), r3)
  | _ => if ds = [] then none else some (((digitsToNat 0 ds : Int), 1), r1)

def parseExpDigits (cs : List Char) : Option (Int × List Char) :=
  let sr : Int × List Char :=
    match cs with
    | '+' :: r => (1, r)
    | '-' :: r => (-1, r)
    | r => (1, r)
  let ds := sr.2.takeWhile Char.isDigit
  let rest := sr.2.dropWhile Char.isDigit
  if ds = [] then none else some (sr.1 * (digitsToNat 0 ds : Int), rest)

/-- Optional exponent part after the mantissa. -/
def parseExpPart (cs : List Char) : Option (Int × List Char) :=
  match cs with
  | [] => some (0, [])
  | 'e' :: r => parseExpDigits r
  | 'E' :: r => parseExpDigits r
  | _ => some (0, cs)

/-- The rational value sign * (n / d) * 10 ^ e, built with `mkRat`. -/
def scaledRat (neg : Bool) (n : Int) (d : Nat) (e : Int) : ℚ :=
  let sn : Int := if neg then -n else n
  if 0 ≤ e then mkRat (sn * ((10 ^ e.toNat : ℕ) : Int)) d
  else mkRat sn (d * 10 ^ (-e).toNat)

/-- `float(s)` on a string: `some` the parsed value, `none` when the call
raises `ValueError`. -/
def pyFloat? (s : String) : Option PyFloat :=
  let cs := stripList s.data
  let nr : Bool × List Char :=
    match cs with
    | '+' :: r => (false, r)
    | '-' :: r => (true, r)
    | r => (false, r)
  let low := nr.2.map Char.toLower
  if low = "inf".data ∨ low = "infinity".data then
    some (if nr.1 then PyFloat.ninf else PyFloat.inf)
  else if low = "nan".data then some PyFloat.nan
  else
    match parseUnsigned nr.2 with
    | none => none
    | some (nd, r) =>
      match parseExpPart r with
      | none => none
      | some (e, r2) =>
        if r2 = [] then some (PyFloat.fin (scaledRat nr.1 nd.1 nd.2 e)) else none

/-! ### Cells, sheets and workbooks (openpyxl model)

A cell records the pieces of state the embedded code reads or writes:
value, font color and border.  A sheet is a total grid of cells indexed by
(row, column), both 1-based as in openpyxl, together with `maxCol`
tracking `max_column` (accessing `sheet.cell(row, col)` materialises the
cell, so every write bumps `maxCol`). -/

inductive CellValue where
  | vnone
  | vstr (s : String)
  | vnum (f : PyFloat)
deriving DecidableEq

structure SideS where
  style : String
  color : String
deriving DecidableEq

structure BorderS where
  left : Option SideS
  right : Option SideS
  top : Option SideS
  bottom : Option SideS
deriving DecidableEq

/-- `Side(border_style="thin", color="000000")` (line 160). -/
def thinSide : SideS := ⟨"thin", "000000"⟩

/-- The border built at lines 161-166. -/
def thinBorder : BorderS := ⟨some thinSide, some thinSide, some thinSide, some thinSide⟩

structure FontS where
  color : String
deriving DecidableEq

/-- `Font(color="000000")` (line 157). -/
def blackFont : FontS := ⟨"000000"⟩

structure Cell where
  value : CellValue
  font : Option FontS
  border : Option BorderS
deriving DecidableEq

def defaultCell : Cell := ⟨CellValue.vnone, none, none⟩

structure Sheet where
  cells : Nat → Nat → Cell
  maxCol : Nat

/-- A workbook: sheets with their titles, in tab order. -/
abbrev Workbook := List (String × Sheet)

/-- Python truthiness of a cell value (the `if cell.value:` test, line 143). -/
def cellTruthy : CellValue → Bool
  | CellValue.vnone => false
  | CellValue.vstr s => !(s.data = [] : Bool)
  | CellValue.vnum (PyFloat.fin q) => !(q = 0 : Bool)
  | CellValue.vnum _ => true

def natDecimalDigits (fuel n : Nat) : List Char :=
  match fuel with
  | 0 => []
  | fuel + 1 =>
    if n < 10 then [Char.ofNat (n + '0'.toNat)]
    else natDecimalDigits fuel (n / 10) ++ [Char.ofNat (n % 10 + '0'.toNat)]

def natToDecString (n : Nat) : String := String.mk (natDecimalDigits (n + 1) n)

def fracDigits (fuel num den : Nat) : List Char :=
  match fuel with
  | 0 => []
  | fuel + 1 =>
    if num = 0 then []
    else natDecimalDigits 40 (num * 10 / den) ++ fracDigits fuel (num * 10 % den) den

/-- A decimal rendering of a rational, standing in for Python's
`str(float)`; only reachable through numeric header cells, which no claim
exercises. -/
def ratToDecString (q : ℚ) : String :=
  let sgn := if q < 0 then "-" else ""
  let n := q.num.natAbs
  let d := q.den
  let frac := fracDigits 30 (n % d) d
  sgn ++ natToDecString (n / d) ++ "." ++ String.mk (if frac = [] then ['0'] else frac)

/-- `str(cell.value)` as used when reading header cells (line 144). -/
def cellStr : CellValue → String
  | CellValue.vnone => "None"
  | CellValue.vstr s => s
  | CellValue.vnum (PyFloat.fin q) => ratToDecString q
  | CellValue.vnum PyFloat.inf => "inf"
  | CellValue.vnum PyFloat.ninf => "-inf"
  | CellValue.vnum PyFloat.nan => "nan"

/-! ### Sheet primitives -/

/-- `sheet.insert_rows(t)`: rows at index ≥ t shift down by one; the new
row t is empty. -/
def insertRowAt (s : Sheet) (t : Nat) : Sheet :=
  { cells := fun r c =>
      if r < t then s.cells r c else if r = t then defaultCell else s.cells (r - 1) c
    maxCol := s.maxCol }

/-- Update the cell at (r, c); materialising the cell makes `max_column`
at least c. -/
def mapCellAt (s : Sheet) (r c : Nat) (f : Cell → Cell) : Sheet :=
  { cells := fun r' c' => if r' = r ∧ c' = c then f (s.cells r c) else s.cells r' c'
    maxCol := max s.maxCol c }

/-- `cell.border = thin_border` (line 172). -/
def setBorderCell (s : Sheet) (r c : Nat) : Sheet :=
  mapCellAt s r c (fun cell => { cell with border := some thinBorder })

/-- The border loop at lines 170-172, over the given column indices. -/
def applyBorders (t : Nat) (cols : List Nat) (s : Sheet) : Sheet :=
  cols.foldl (fun s c => setBorderCell s t c) s

/-- One column of the header scan: a truthy cell maps its stripped text
to its column index. -/
def hdrStep (sheet : Sheet) (header_row : Nat) (m : List (String × Nat)) (c : Nat) :
    List (String × Nat) :=
  if cellTruthy (sheet.cells header_row c).value then
    (pyStrip (cellStr (sheet.cells header_row c).value), c) :: m
  else m

/-- `get_header_map` (lines 136-146): scan the header row up to
`max_column`; each truthy cell maps its stripped text to its column, a
later column overriding an earlier duplicate (dict assignment).  The list
is built column-descending so that `alookup` returns the last assignment. -/
def get_header_map (sheet : Sheet) (header_row : Nat) : List (String × Nat) :=
  (List.range' 1 sheet.maxCol).foldl (hdrStep sheet header_row) []

/-- `data_row.get(field_name, default)`. -/
def drGet (dr : DataRow) (k d : String) : String := (alookup dr k).getD d

/-- The `field_to_header_map` dict (lines 180-188), in insertion order. -/
def field_to_header_map : List (String × String) :=
  [("FECHA", "FECHA"), ("BATEA", "BATEA"), ("EMPRESA", "EMPRESA"),
   ("NIF EMPRESA", "NIF EMPRESA"), ("KG BRUTOS", "KG BRUTOS"),
   ("DESCUENTO", "DESCUENTO"), ("KG NETOS", "KG NETOS")]

/-- Lines 195-202: try `float(...)`; numeric on success, the original
string on `ValueError`. -/
def coerceValue (v : String) : CellValue :=
  match pyFloat? v with
  | some f => CellValue.vnum f
  | none => CellValue.vstr v

/-- The body of the field-writing loop for one field: set the cell value
(numeric if coercion succeeds, the raw string otherwise) and the black
font; the cell's border is left as is. -/
def writeFieldCell (dr : DataRow) (fieldName : String) (cell : Cell) : Cell :=
  { cell with value := coerceValue (drGet dr fieldName ""), font := some blackFont }

/-- The loop at lines 190-204 over an arbitrary field list: fields whose
header is missing from the map are skipped. -/
def writeFields (dr : DataRow) (hm : List (String × Nat)) (t : Nat)
    (fs : List (String × String)) (s : Sheet) : Sheet :=
  fs.foldl
    (fun s p =>
      match alookup hm p.2 with
      | some col => mapCellAt s t col (writeFieldCell dr p.1)
      | none => s)
    s

/-- `write_data_to_sheet` (lines 148-204): insert a row at `target_row`,
border columns 1-14 of it, then write the mapped fields. -/
def write_data_to_sheet (sheet : Sheet) (header_map : List (String × Nat))
    (data_row : DataRow) (target_row : Nat) : Sheet :=
  writeFields data_row header_map target_row field_to_header_map
    (applyBorders target_row (List.range' 1 14) (insertRowAt sheet target_row))

/-- The contents of the freshly written row, as a function of column:
bordered-empty on columns 1-14, then the field writes. -/
def rowBaseCell (c : Nat) : Cell :=
  if 1 ≤ c ∧ c ≤ 14 then { defaultCell with border := some thinBorder } else defaultCell

def writeFieldsRow (dr : DataRow) (hm : List (String × Nat))
    (fs : List (String × String)) (g : Nat → Cell) : Nat → Cell :=
  fs.foldl
    (fun g p =>
      match alookup hm p.2 with
      | some col => fun c => if c = col then writeFieldCell dr p.1 (g col) else g c
      | none => g)
    g

def writtenRowCells (hm : List (String × Nat)) (dr : DataRow) : Nat → Cell :=
  writeFieldsRow dr hm field_to_header_map rowBaseCell

/-! ### Row-writer lemmas -/

theorem mapCellAt_cells (s : Sheet) (r c : Nat) (f : Cell → Cell) (r' c' : Nat) :
    (mapCellAt s r c f).cells r' c' =
      if r' = r ∧ c' = c then f (s.cells r c) else s.cells r' c' := rfl

theorem applyBorders_cells_ne (t : Nat) (cols : List Nat) :
    ∀ (s : Sheet) (r c : Nat), r ≠ t →
      (applyBorders t cols s).cells r c = s.cells r c := by
  induction cols with
  | nil => intro s r c _; rfl
  | cons c0 cs ih =>
    intro s r c hr
    rw [applyBorders, List.foldl_cons]
    have step := ih (setBorderCell s t c0) r c hr
    rw [applyBorders] at step
    rw [step, setBorderCell, mapCellAt_cells, if_neg]
    rintro ⟨h1, _⟩
    exact hr h1

theorem applyBorders_cells_at (t : Nat) (cols : List Nat) :
    ∀ (s : Sheet) (c : Nat),
      (applyBorders t cols s).cells t c =
        if c ∈ cols then { s.cells t c with border := some thinBorder }
        else s.cells t c := by
  induction cols with
  | nil => intro s c; simp [applyBorders]
  | cons c0 cs ih =>
    intro s c
    rw [applyBorders, List.foldl_cons]
    have step := ih (setBorderCell s t c0) c
    rw [applyBorders] at step
    rw [step]
    by_cases h0 : c = c0
    · subst h0
      by_cases hm : c ∈ cs
      · rw [if_pos hm, if_pos (List.mem_cons_self _ _)]
        rw [setBorderCell, mapCellAt_cells, if_pos ⟨rfl, rfl⟩]
      · rw [if_neg hm, if_pos (List.mem_cons_self _ _)]
        rw [setBorderCell, mapCellAt_cells, if_pos ⟨rfl, rfl⟩]
    · have hcells : (setBorderCell s t c0).cells t c = s.cells t c := by
        rw [setBorderCell, mapCellAt_cells, if_neg]
        rintro ⟨_, h2⟩
        exact h0 h2
      rw [hcells]
      by_cases hm : c ∈ cs
      · rw [if_pos hm, if_pos (List.mem_cons_of_mem _ hm)]
      · rw [if_neg hm, if_neg]
        rw [List.mem_cons]
        rintro (h | h)
        · exact h0 h
        · exact hm h

theorem writeFields_cells_ne (dr : DataRow) (hm : List (String × Nat)) (t : Nat)
    (fs : List (String × String)) :
    ∀ (s : Sheet) (r c : Nat), r ≠ t →
      (writeFields dr hm t fs s).cells r c = s.cells r c := by
  induction fs with
  | nil => intro s r c _; rfl
  | cons p fs ih =>
    intro s r c hr
    rw [writeFields, List.foldl_cons]
    rcases hp : alookup hm p.2 with _ | col
    · have step := ih s r c hr
      rw [writeFields] at step
      exact step
    · have step := ih (mapCellAt s t col (writeFieldCell dr p.1)) r c hr
      rw [writeFields] at step
      have h2 : (mapCellAt s t col (writeFieldCell dr p.1)).cells r c = s.cells r c := by
        rw [mapCellAt_cells, if_neg]
        rintro ⟨h1, _⟩
        exact hr h1
      exact step.trans h2

theorem writeFields_cells_at (dr : DataRow) (hm : List (String × Nat)) (t : Nat)
    (fs : List (String × String)) :
    ∀ (s : Sheet) (g : Nat → Cell), (∀ c, s.cells t c = g c) →
      ∀ c, (writeFields dr hm t fs s).cells t c = writeFieldsRow dr hm fs g c := by
  induction fs with
  | nil => intro s g hg c; exact hg c
  | cons p fs ih =>
    intro s g hg c
    rw [writeFields, List.foldl_cons, writeFieldsRow, List.foldl_cons]
    rcases hp : alookup hm p.2 with _ | col
    · have step := ih s g hg c
      rw [writeFields, writeFieldsRow] at step
      exact step
    · have step := ih (mapCellAt s t col (writeFieldCell dr p.1))
        (fun c => if c = col then writeFieldCell dr p.1 (g col) else g c) ?_ c
      · rw [writeFields, writeFieldsRow] at step
        exact step
      · intro c'
        show (mapCellAt s t col (writeFieldCell dr p.1)).cells t c' =
          if c' = col then writeFieldCell dr p.1 (g col) else g c'
        rw [mapCellAt_cells]
        by_cases h : c' = col
        · rw [if_pos ⟨rfl, h⟩, if_pos h, hg col]
        · rw [if_neg (by rintro ⟨_, h2⟩; exact h h2), if_neg h, hg c']

theorem insertRowAt_cells (s : Sheet) (t r c : Nat) :
    (insertRowAt s t).cells r c =
      if r < t then s.cells r c else if r = t then defaultCell else s.cells (r - 1) c := rfl

theorem insertRowAt_cells_self (s : Sheet) (t c : Nat) :
    (insertRowAt s t).cells t c = defaultCell := by
  rw [insertRowAt_cells, if_neg (Nat.lt_irrefl t), if_pos rfl]

theorem write_cells_below (sheet : Sheet) (hm : List (String × Nat)) (dr : DataRow)
    (t r c : Nat) (h : r < t) :
    (write_data_to_sheet sheet hm dr t).cells r c = sheet.cells r c := by
  have hne : r ≠ t := Nat.ne_of_lt h
  rw [write_data_to_sheet, writeFields_cells_ne _ _ _ _ _ _ _ hne,
    applyBorders_cells_ne _ _ _ _ _ hne, insertRowAt_cells, if_pos h]

theorem write_cells_shift (sheet : Sheet) (hm : List (String × Nat)) (dr : DataRow)
    (t r c : Nat) (h : t ≤ r) :
    (write_data_to_sheet sheet hm dr t).cells (r + 1) c = sheet.cells r c := by
  have hne : r + 1 ≠ t := by omega
  rw [write_data_to_sheet, writeFields_cells_ne _ _ _ _ _ _ _ hne,
    applyBorders_cells_ne _ _ _ _ _ hne, insertRowAt_cells, if_neg (by omega), if_neg hne,
    Nat.add_sub_cancel]

theorem write_cells_target (sheet : Sheet) (hm : List (String × Nat)) (dr : DataRow)
    (t c : Nat) :
    (write_data_to_sheet sheet hm dr t).cells t c = writtenRowCells hm dr c := by
  rw [write_data_to_sheet, writtenRowCells]
  apply writeFields_cells_at
  intro c'
  rw [applyBorders_cells_at, insertRowAt_cells_self, rowBaseCell]
  by_cases hc : c' ∈ List.range' 1 14
  · rw [if_pos hc, if_pos]
    rw [List.mem_range'_1] at hc
    omega
  · rw [if_neg hc, if_neg]
    rw [List.mem_range'_1] at hc
    omega

theorem writeFieldsRow_border (dr : DataRow) (hm : List (String × Nat))
    (fs : List (String × String)) :
    ∀ (g : Nat → Cell) (c : Nat),
      ((writeFieldsRow dr hm fs g) c).border = (g c).border := by
  induction fs with
  | nil => intro g c; rfl
  | cons p fs ih =>
    intro g c
    rw [writeFieldsRow, List.foldl_cons]
    rcases hp : alookup hm p.2 with _ | col
    · have step := ih g c
      rw [writeFieldsRow] at step
      exact step
    · have step := ih (fun c => if c = col then writeFieldCell dr p.1 (g col) else g c) c
      rw [writeFieldsRow] at step
      refine step.trans ?_
      by_cases h : c = col
      · rw [if_pos h, writeFieldCell]
        subst h
        rfl
      · rw [if_neg h]

theorem writtenRowCells_border (hm : List (String × Nat)) (dr : DataRow) (c : Nat)
    (h1 : 1 ≤ c) (h2 : c ≤ 14) :
    (writtenRowCells hm dr c).border = some thinBorder := by
  rw [writtenRowCells, writeFieldsRow_border, rowBaseCell, if_pos ⟨h1, h2⟩]

/-! ### Claim C7 -/

/-- C7: every call to the row writer inserts a blank row at the target
index — rows above it are untouched and every row at or below it shifts
down by one, so nothing is overwritten — and the inserted row carries the
uniform thin black border on columns 1 through 14, whatever fields are
populated. -/
theorem row_writer_shifts_and_borders (sheet : Sheet) (header_map : List (String × Nat))
    (data_row : DataRow) (target_row : Nat) :
    (∀ r c, r < target_row →
      (write_data_to_sheet sheet header_map data_row target_row).cells r c =
        sheet.cells r c) ∧
    (∀ r c, target_row ≤ r →
      (write_data_to_sheet sheet header_map data_row target_row).cells (r + 1) c =
        sheet.cells r c) ∧
    (∀ c, 1 ≤ c → c ≤ 14 →
      ((write_data_to_sheet sheet header_map data_row target_row).cells target_row c).border =
        some thinBorder) := by
  refine ⟨?_, ?_, ?_⟩
  · intro r c h
    exact write_cells_below sheet header_map data_row target_row r c h
  · intro r c h
    exact write_cells_shift sheet header_map data_row target_row r c h
  · intro c h1 h2
    rw [write_cells_target]
    exact writtenRowCells_border header_map data_row c h1 h2

def exSheetC7 : Sheet :=
  { cells := fun r c =>
      if r = 5 ∧ c = 1 then ⟨CellValue.vstr "old", none, none⟩ else defaultCell
    maxCol := 1 }

theorem row_writer_shifts_and_borders_witness :
    ((write_data_to_sheet exSheetC7 [] [] 5).cells 3 1 = exSheetC7.cells 3 1) ∧
    ((write_data_to_sheet exSheetC7 [] [] 5).cells 6 1 = exSheetC7.cells 5 1) ∧
    (((write_data_to_sheet exSheetC7 [] [] 5).cells 5 14).border = some thinBorder) :=
  ⟨(row_writer_shifts_and_borders exSheetC7 [] [] 5).1 3 1 (by omega),
   (row_writer_shifts_and_borders exSheetC7 [] [] 5).2.1 5 1 (by omega),
   (row_writer_shifts_and_borders exSheetC7 [] [] 5).2.2 14 (by omega) (by omega)⟩

/-! ### Claim C6 -/

def exHmC6 : List (String × Nat) := [("KG BRUTOS", 1), ("BATEA", 2)]

def exDrC6 : DataRow := [("KG BRUTOS", "1500.50"), ("BATEA", "A-102")]

def exSheetC6 : Sheet := { cells := fun _ _ => defaultCell, maxCol := 2 }

/-- C6: every field value written by the row writer is first coerced with
`float(...)`; on success the cell stores the numeric value, on failure the
original string, and in both branches the cell gets the uniform black
font.  In particular "1500.50" is stored as the number 1500.5 and "A-102"
as text, both with the black font. -/
theorem row_writer_value_typing :
    (∀ (dr : DataRow) (fn : String) (cell : Cell),
      (writeFieldCell dr fn cell).font = some blackFont ∧
      ((∃ f, pyFloat? (drGet dr fn "") = some f ∧
          (writeFieldCell dr fn cell).value = CellValue.vnum f) ∨
       (pyFloat? (drGet dr fn "") = none ∧
          (writeFieldCell dr fn cell).value = CellValue.vstr (drGet dr fn "")))) ∧
    pyFloat? "1500.50" = some (PyFloat.fin (mkRat 3001 2)) ∧
    pyFloat? "A-102" = none ∧
    ((write_data_to_sheet exSheetC6 exHmC6 exDrC6 5).cells 5 1).value =
      CellValue.vnum (PyFloat.fin (mkRat 3001 2)) ∧
    ((write_data_to_sheet exSheetC6 exHmC6 exDrC6 5).cells 5 1).font = some blackFont ∧
    ((write_data_to_sheet exSheetC6 exHmC6 exDrC6 5).cells 5 2).value =
      CellValue.vstr "A-102" ∧
    ((write_data_to_sheet exSheetC6 exHmC6 exDrC6 5).cells 5 2).font = some blackFont := by
  refine ⟨?_, by decide, by decide, by decide, by decide, by decide, by decide⟩
  intro dr fn cell
  refine ⟨rfl, ?_⟩
  rw [writeFieldCell]
  simp only
  rw [coerceValue]
  rcases hp : pyFloat? (drGet dr fn "") with _ | f
  · exact Or.inr ⟨rfl, rfl⟩
  · exact Or.inl ⟨f, rfl, rfl⟩

/-! ### Workbook operations and the two orchestrator modes -/

/-- `workbook[name]` and the `name in workbook.sheetnames` test: first
sheet with the given title (openpyxl titles are unique). -/
def wbFind : Workbook → String → Option Sheet
  | [], _ => none
  | (n, s) :: rest, key => if n = key then some s else wbFind rest key

/-- Mutate the (first) sheet with the given title in place. -/
def modifySheet : Workbook → String → (Sheet → Sheet) → Workbook
  | [], _, _ => []
  | (n, s) :: rest, key, f =>
    if n = key then (n, f s) :: rest else (n, s) :: modifySheet rest key f

/-- `get_or_create_sheet` (lines 207-236): return the sheet titled
`batea_name` if present; otherwise clone the template sheet (appending the
copy, retitled `batea_name`) or return `None` when the template sheet is
missing.  The parent-workbook validity check at lines 226-230 is vacuous
in this model (a found sheet always belongs to the workbook). -/
def get_or_create_sheet (workbook : Workbook) (batea_name template_sheet_name : String) :
    Option (Workbook × Sheet) :=
  match wbFind workbook batea_name with
  | some sh => some (workbook, sh)
  | none =>
    match wbFind workbook template_sheet_name with
    | none => none
    | some tsh => some (workbook ++ [(batea_name, tsh)], tsh)

/-- One iteration of the update-mode loop (lines 385-403): skip rows with
an empty stripped BATEA, otherwise provision the sheet (skipping the row
when that fails), rebuild the header map from row 4 and write at row 5. -/
def updateStep (wb : Workbook) (data_row : DataRow) : Workbook :=
  let batea := pyStrip (drGet data_row "BATEA" "")
  if batea = "" then wb
  else
    match get_or_create_sheet wb batea "TEMPLATE" with
    | none => wb
    | some (wb2, _) =>
      modifySheet wb2 batea
        (fun sheet => write_data_to_sheet sheet (get_header_map sheet 4) data_row 5)

/-- The whole update-mode loop over the extracted rows. -/
def updateRun (wb : Workbook) (rows : List DataRow) : Workbook :=
  rows.foldl updateStep wb

/-- The grouping key of create mode (lines 413-416): strip
`row.get('BATEA', 'UNKNOWN_BATEA')` and fall back to the sentinel when
empty. -/
def createKey (dr : DataRow) : String :=
  let batea := pyStrip (drGet dr "BATEA" "UNKNOWN_BATEA")
  if batea = "" then "UNKNOWN_BATEA" else batea

/-- `data_by_batea[batea].append(row)`, creating the key on first use. -/
def appendToGroup : List (String × List DataRow) → String → DataRow →
    List (String × List DataRow)
  | [], k, dr => [(k, [dr])]
  | (k', l) :: rest, k, dr =>
    if k' = k then (k', l ++ [dr]) :: rest else (k', l) :: appendToGroup rest k dr

/-- The grouping loop at lines 412-419, preserving key insertion order. -/
def groupByBatea (rows : List DataRow) : List (String × List DataRow) :=
  rows.foldl (fun gs dr => appendToGroup gs (createKey dr) dr) []

/-- Create mode opens a fresh copy of PLANTILLA.xlsx and renames the
active (first) sheet to TEMPLATE (lines 421-432). -/
def createInit (plantilla : Workbook) : Workbook :=
  match plantilla with
  | [] => []
  | (_, s) :: rest => ("TEMPLATE", s) :: rest

/-- One iteration of the create-mode loop (lines 445-460): provision the
group's sheet, read the header map once, then write every row of the
group at row 5. -/
def createStep (wb : Workbook) (group : String × List DataRow) : Workbook :=
  match get_or_create_sheet wb group.1 "TEMPLATE" with
  | none => wb
  | some (wb2, _) =>
    modifySheet wb2 group.1
      (fun sheet =>
        let hm := get_header_map sheet 4
        group.2.foldl (fun s dr => write_data_to_sheet s hm dr 5) sheet)

/-- The whole create-mode run, starting from the copied template file. -/
def createRun (plantilla : Workbook) (rows : List DataRow) : Workbook :=
  (groupByBatea rows).foldl createStep (createInit plantilla)

/-- The terminal step before saving (lines 465-472): delete the TEMPLATE
sheet when present.  The result is the workbook as saved. -/
def finalize (wb : Workbook) : Workbook :=
  wb.eraseP (fun p => p.1 == "TEMPLATE")

/-- The sheet a row with the given key is written into by
`get_or_create_sheet`: the existing sheet with that title, or the
template sheet about to be cloned. -/
def updateTargetSheet (wb : Workbook) (key : String) : Option Sheet :=
  match wbFind wb key with
  | some s => some s
  | none => wbFind wb "TEMPLATE"

/-! ### Workbook lemmas -/

theorem wbFind_modifySheet_self (wb : Workbook) (key : String) (f : Sheet → Sheet) :
    ∀ s, wbFind wb key = some s → wbFind (modifySheet wb key f) key = some (f s) := by
  induction wb with
  | nil => intro s h; exact Option.noConfusion h
  | cons p rest ih =>
    rcases p with ⟨n, sh⟩
    intro s h
    rw [wbFind] at h
    rw [modifySheet]
    by_cases hn : n = key
    · rw [if_pos hn] at h ⊢
      rw [wbFind, if_pos hn]
      rw [Option.some_inj] at h
      rw [h]
    · rw [if_neg hn] at h ⊢
      rw [wbFind, if_neg hn]
      exact ih s h

theorem wbFind_append_right (wb : Workbook) (key : String) (s : Sheet)
    (h : wbFind wb key = none) : wbFind (wb ++ [(key, s)]) key = some s := by
  induction wb with
  | nil => rw [List.nil_append, wbFind, if_pos rfl]
  | cons p rest ih =>
    rcases p with ⟨n, sh⟩
    rw [wbFind] at h
    by_cases hn : n = key
    · rw [if_pos hn] at h
      exact Option.noConfusion h
    · rw [if_neg hn] at h
      rw [List.cons_append, wbFind, if_neg hn]
      exact ih h

theorem names_modifySheet (wb : Workbook) (key : String) (f : Sheet → Sheet) :
    (modifySheet wb key f).map Prod.fst = wb.map Prod.fst := by
  induction wb with
  | nil => rfl
  | cons p rest ih =>
    rcases p with ⟨n, sh⟩
    rw [modifySheet]
    by_cases hn : n = key
    · rw [if_pos hn]
      rfl
    · rw [if_neg hn, List.map_cons, List.map_cons, ih]

theorem wbFind_eq_none_iff (wb : Workbook) (key : String) :
    wbFind wb key = none ↔ key ∉ wb.map Prod.fst := by
  induction wb with
  | nil => simp [wbFind]
  | cons p rest ih =>
    rcases p with ⟨n, sh⟩
    rw [wbFind]
    by_cases hn : n = key
    · rw [if_pos hn]
      simp [hn]
    · rw [if_neg hn]
      rw [ih]
      simp only [List.map_cons, List.mem_cons]
      constructor
      · rintro h (h1 | h1)
        · exact hn h1.symm
        · exact h h1
      · intro h h1
        exact h (Or.inr h1)

theorem wbFind_isSome_of_mem (wb : Workbook) (key : String)
    (h : key ∈ wb.map Prod.fst) : ∃ s, wbFind wb key = some s := by
  rcases hf : wbFind wb key with _ | s
  · rw [wbFind_eq_none_iff] at hf
    exact absurd h hf
  · exact ⟨s, rfl⟩

/-! ### Claim C5 -/

/-- C5: `get_or_create_sheet` returns the existing sheet on a
case-sensitive exact title match (leaving the workbook untouched), and
returns null when neither the key nor the template sheet names a sheet;
in that case both the update-mode caller and the create-mode caller skip
the row or group, leaving the workbook unchanged. -/
theorem get_or_create_sheet_contract (wb : Workbook) (key tname : String) :
    (∀ sh, wbFind wb key = some sh → get_or_create_sheet wb key tname = some (wb, sh)) ∧
    (wbFind wb key = none → wbFind wb tname = none →
      get_or_create_sheet wb key tname = none) ∧
    (∀ dr, pyStrip (drGet dr "BATEA" "") = key → key ≠ "" →
      wbFind wb key = none → wbFind wb "TEMPLATE" = none → updateStep wb dr = wb) ∧
    (∀ ls, wbFind wb key = none → wbFind wb "TEMPLATE" = none →
      createStep wb (key, ls) = wb) := by
  refine ⟨?_, ?_, ?_, ?_⟩
  · intro sh h
    rw [get_or_create_sheet, h]
  · intro h1 h2
    rw [get_or_create_sheet, h1, h2]
  · intro dr hb hk h1 h2
    rw [updateStep]
    simp only [hb]
    rw [if_neg hk, get_or_create_sheet, h1, h2]
  · intro ls h1 h2
    rw [createStep]
    simp only
    rw [get_or_create_sheet, h1, h2]

def blankSheet : Sheet := { cells := fun _ _ => defaultCell, maxCol := 0 }

def exWbC5 : Workbook := [("Hoja", blankSheet)]

def exDrC5 : DataRow := [("BATEA", " X ")]

theorem get_or_create_sheet_contract_witness :
    wbFind exWbC5 "Hoja" = some blankSheet ∧
    get_or_create_sheet exWbC5 "Hoja" "TEMPLATE" = some (exWbC5, blankSheet) ∧
    wbFind exWbC5 "X" = none ∧
    wbFind exWbC5 "TEMPLATE" = none ∧
    get_or_create_sheet exWbC5 "X" "TEMPLATE" = none ∧
    updateStep exWbC5 exDrC5 = exWbC5 ∧
    createStep exWbC5 ("X", [exDrC5]) = exWbC5 :=
  ⟨rfl,
   (get_or_create_sheet_contract exWbC5 "Hoja" "TEMPLATE").1 blankSheet rfl,
   rfl,
   rfl,
   (get_or_create_sheet_contract exWbC5 "X" "TEMPLATE").2.1 rfl rfl,
   (get_or_create_sheet_contract exWbC5 "X" "TEMPLATE").2.2.1 exDrC5 (by decide)
     (by decide) rfl rfl,
   (get_or_create_sheet_contract exWbC5 "X" "TEMPLATE").2.2.2 [exDrC5] rfl rfl⟩

/-! ### Claim C10 -/

theorem finalize_modifySheet (wb : Workbook) (f : Sheet → Sheet) :
    finalize (modifySheet wb "TEMPLATE" f) = finalize wb := by
  induction wb with
  | nil => rfl
  | cons p rest ih =>
    rcases p with ⟨n, sh⟩
    rw [modifySheet]
    by_cases hn : n = "TEMPLATE"
    · rw [if_pos hn]
      have hb : (n == "TEMPLATE") = true := by simpa using hn
      simp only [finalize, List.eraseP_cons, hb, cond_true]
    · rw [if_neg hn]
      have hb : (n == "TEMPLATE") = false := by simpa using hn
      simp only [finalize, List.eraseP_cons, hb, cond_false]
      simp only [finalize] at ih
      rw [ih]

/-- C10: a row whose stripped category key is exactly TEMPLATE is routed
by `get_or_create_sheet` to the reserved template sheet itself, its data
is written into that sheet, and the terminal template deletion then
removes the sheet — so the saved workbook is identical to what it would
have been had the row never been processed, with no error or skip. -/
theorem template_key_row_vanishes (wb : Workbook) (tsh : Sheet) (dr : DataRow)
    (hfind : wbFind wb "TEMPLATE" = some tsh)
    (hkey : pyStrip (drGet dr "BATEA" "") = "TEMPLATE") :
    get_or_create_sheet wb "TEMPLATE" "TEMPLATE" = some (wb, tsh) ∧
    wbFind (updateStep wb dr) "TEMPLATE" =
      some (write_data_to_sheet tsh (get_header_map tsh 4) dr 5) ∧
    finalize (updateStep wb dr) = finalize wb := by
  have hstep : updateStep wb dr =
      modifySheet wb "TEMPLATE"
        (fun sheet => write_data_to_sheet sheet (get_header_map sheet 4) dr 5) := by
    rw [updateStep]
    simp only [hkey]
    rw [if_neg (by decide), get_or_create_sheet, hfind]
  refine ⟨?_, ?_, ?_⟩
  · rw [get_or_create_sheet, hfind]
  · rw [hstep]
    exact wbFind_modifySheet_self wb "TEMPLATE" _ tsh hfind
  · rw [hstep, finalize_modifySheet]

def exTshC10 : Sheet := { cells := fun _ _ => defaultCell, maxCol := 0 }

def exWbC10 : Workbook := [("TEMPLATE", exTshC10)]

def exDrC10 : DataRow := [("BATEA", " TEMPLATE ")]

theorem template_key_row_vanishes_witness :
    (wbFind exWbC10 "TEMPLATE" = some exTshC10 ∧
     pyStrip (drGet exDrC10 "BATEA" "") = "TEMPLATE") ∧
    (get_or_create_sheet exWbC10 "TEMPLATE" "TEMPLATE" = some (exWbC10, exTshC10) ∧
     wbFind (updateStep exWbC10 exDrC10) "TEMPLATE" =
       some (write_data_to_sheet exTshC10 (get_header_map exTshC10 4) exDrC10 5) ∧
     finalize (updateStep exWbC10 exDrC10) = finalize exWbC10) :=
  ⟨⟨rfl, by decide⟩,
   template_key_row_vanishes exWbC10 exTshC10 exDrC10 rfl (by decide)⟩

/-! ### Claim C4 -/

/-- Rows grouped under a key. -/
def groupRows (gs : List (String × List DataRow)) (k : String) : List DataRow :=
  (alookup gs k).getD []

theorem mem_groupRows_appendToGroup_self (gs : List (String × List DataRow))
    (k : String) (dr : DataRow) : dr ∈ groupRows (appendToGroup gs k dr) k := by
  induction gs with
  | nil =>
    rw [appendToGroup, groupRows, alookup, if_pos rfl]
    exact List.mem_singleton_self dr
  | cons p rest ih =>
    rcases p with ⟨k', l⟩
    rw [appendToGroup]
    by_cases hk : k' = k
    · rw [if_pos hk, groupRows, alookup, if_pos hk]
      simp
    · rw [if_neg hk, groupRows, alookup, if_neg hk]
      exact ih

theorem mem_groupRows_appendToGroup_mono (gs : List (String × List DataRow))
    (k' : String) (dr' : DataRow) (k : String) (dr : DataRow)
    (h : dr ∈ groupRows gs k) : dr ∈ groupRows (appendToGroup gs k' dr') k := by
  induction gs with
  | nil =>
    rw [groupRows, alookup] at h
    simp at h
  | cons p rest ih =>
    rcases p with ⟨k0, l⟩
    rw [groupRows, alookup] at h
    rw [appendToGroup]
    by_cases h0 : k0 = k'
    · rw [if_pos h0, groupRows, alookup]
      by_cases hk : k0 = k
      · rw [if_pos hk] at h ⊢
        simp only [Option.getD_some] at h ⊢
        exact List.mem_append_left _ h
      · rw [if_neg hk] at h ⊢
        exact h
    · rw [if_neg h0, groupRows, alookup]
      by_cases hk : k0 = k
      · rw [if_pos hk] at h ⊢
        exact h
      · rw [if_neg hk] at h ⊢
        exact ih h

theorem mem_groupRows_fold (rows : List DataRow) :
    ∀ (gs : List (String × List DataRow)) (k : String) (dr : DataRow),
      dr ∈ groupRows gs k →
      dr ∈ groupRows (rows.foldl (fun gs dr => appendToGroup gs (createKey dr) dr) gs) k := by
  induction rows with
  | nil => intro gs k dr h; exact h
  | cons r rows ih =>
    intro gs k dr h
    rw [List.foldl_cons]
    exact ih _ k dr (mem_groupRows_appendToGroup_mono gs (createKey r) r k dr h)

theorem mem_groupFold_of_mem (rows : List DataRow) :
    ∀ (gs : List (String × List DataRow)) (dr : DataRow), dr ∈ rows →
      dr ∈ groupRows (rows.foldl (fun gs dr => appendToGroup gs (createKey dr) dr) gs)
        (createKey dr) := by
  induction rows with
  | nil => intro gs dr h; exact absurd h (List.not_mem_nil dr)
  | cons r rows ih =>
    intro gs dr h
    rw [List.foldl_cons]
    rcases List.mem_cons.mp h with h1 | h1
    · subst h1
      exact mem_groupRows_fold rows _ _ dr
        (mem_groupRows_appendToGroup_self gs (createKey dr) dr)
    · exact ih _ dr h1

theorem mem_groupByBatea (rows : List DataRow) (dr : DataRow) (h : dr ∈ rows) :
    dr ∈ groupRows (groupByBatea rows) (createKey dr) := by
  rw [groupByBatea]
  exact mem_groupFold_of_mem rows [] dr h

theorem writeFold_cells_shift (hm : List (String × Nat)) (ls : List DataRow) :
    ∀ (s : Sheet) (r : Nat), 5 ≤ r → ∀ c,
      ((ls.foldl (fun s dr => write_data_to_sheet s hm dr 5) s).cells (r + ls.length) c) =
        s.cells r c := by
  induction ls with
  | nil => intro s r _ c; rfl
  | cons dr ls ih =>
    intro s r hr c
    rw [List.foldl_cons, List.length_cons,
      show r + (ls.length + 1) = (r + 1) + ls.length from by omega,
      ih (write_data_to_sheet s hm dr 5) (r + 1) (by omega) c,
      write_cells_shift s hm dr 5 r c hr]

theorem writeFold_cells_stack (hm : List (String × Nat)) (ls : List DataRow) :
    ∀ (s : Sheet) (k : Nat), k < ls.length → ∀ c,
      ((ls.foldl (fun s dr => write_data_to_sheet s hm dr 5) s).cells (5 + k) c) =
        writtenRowCells hm (ls.getD (ls.length - 1 - k) []) c := by
  induction ls with
  | nil =>
    intro s k hk
    rw [List.length_nil] at hk
    exact absurd hk (by omega)
  | cons dr ls ih =>
    intro s k hk c
    rw [List.length_cons] at hk
    rw [List.foldl_cons]
    by_cases hkL : k < ls.length
    · rw [ih (write_data_to_sheet s hm dr 5) k hkL c]
      have hidx : (dr :: ls).getD ((dr :: ls).length - 1 - k) [] =
          ls.getD (ls.length - 1 - k) [] := by
        rw [List.length_cons,
          show ls.length + 1 - 1 - k = (ls.length - 1 - k) + 1 from by omega,
          List.getD_cons_succ]
      rw [hidx]
    · have hkeq : k = ls.length := by omega
      subst hkeq
      rw [writeFold_cells_shift hm ls (write_data_to_sheet s hm dr 5) 5 (by omega) c,
        write_cells_target s hm dr 5 c]
      have hidx : (dr :: ls).getD ((dr :: ls).length - 1 - ls.length) [] = dr := by
        rw [List.length_cons,
          show ls.length + 1 - 1 - ls.length = 0 from by omega]
        rfl
      rw [hidx]

theorem writeFold_mem_row (hm : List (String × Nat)) (ls : List DataRow) (dr : DataRow)
    (s : Sheet) (hdr : dr ∈ ls) :
    ∃ k, k < ls.length ∧ ∀ c,
      ((ls.foldl (fun s dr => write_data_to_sheet s hm dr 5) s).cells (5 + k) c) =
        writtenRowCells hm dr c := by
  obtain ⟨i, hi, hget⟩ := List.getElem_of_mem hdr
  refine ⟨ls.length - 1 - i, by omega, ?_⟩
  intro c
  rw [writeFold_cells_stack hm ls s (ls.length - 1 - i) (by omega) c]
  have h1 : ls.length - 1 - (ls.length - 1 - i) = i := by omega
  have h2 : ls.getD i [] = dr := by
    rw [List.getD_eq_getElem?_getD, List.getElem?_eq_getElem hi, Option.getD_some]
    exact hget
  rw [h1, h2]

/-- C4: a row whose category key strips to the empty string is dropped in
update mode (the workbook is returned unchanged, nothing written), while
create mode maps the same row to the fixed sentinel category
UNKNOWN_BATEA: the row is grouped under that key, the create-mode run
processes exactly those groups, and the group step for UNKNOWN_BATEA
writes every row of the group — this one included — into the
UNKNOWN_BATEA sheet (the existing one, or a clone of the template sheet),
so the row's cell data appears in that sheet. -/
theorem empty_key_dropped_vs_sentinel (wb : Workbook) (dr : DataRow)
    (rows : List DataRow)
    (hkey : pyStrip (drGet dr "BATEA" "") = "") :
    updateStep wb dr = wb ∧
    createKey dr = "UNKNOWN_BATEA" ∧
    (dr ∈ rows → dr ∈ groupRows (groupByBatea rows) "UNKNOWN_BATEA") ∧
    (∀ plantilla : Workbook, createRun plantilla rows =
      (groupByBatea rows).foldl createStep (createInit plantilla)) ∧
    (∀ (s0 : Sheet) (ls : List DataRow),
      updateTargetSheet wb "UNKNOWN_BATEA" = some s0 → dr ∈ ls →
      ∃ sU, wbFind (createStep wb ("UNKNOWN_BATEA", ls)) "UNKNOWN_BATEA" = some sU ∧
        ∃ k, k < ls.length ∧ ∀ c, sU.cells (5 + k) c =
          writtenRowCells (get_header_map s0 4) dr c) := by
  have hck : createKey dr = "UNKNOWN_BATEA" := by
    rw [createKey]
    rcases hl : alookup dr "BATEA" with _ | v
    · rw [drGet, hl]
      decide
    · rw [drGet, hl]
      rw [drGet, hl] at hkey
      simp only [Option.getD_some] at hkey ⊢
      rw [hkey]
      decide
  refine ⟨?_, hck, ?_, fun plantilla => rfl, ?_⟩
  · rw [updateStep]
    simp [hkey]
  · intro hmem
    have := mem_groupByBatea rows dr hmem
    rw [hck] at this
    exact this
  · intro s0 ls hs0 hdrls
    rw [createStep]
    simp only
    rcases hf : wbFind wb "UNKNOWN_BATEA" with _ | sE
    · rw [updateTargetSheet, hf] at hs0
      have hs0' : wbFind wb "TEMPLATE" = some s0 := hs0
      rw [get_or_create_sheet, hf, hs0']
      refine ⟨_, wbFind_modifySheet_self _ "UNKNOWN_BATEA" _ s0
        (wbFind_append_right wb "UNKNOWN_BATEA" s0 hf), ?_⟩
      exact writeFold_mem_row (get_header_map s0 4) ls dr s0 hdrls
    · rw [updateTargetSheet, hf] at hs0
      have hs0' : sE = s0 := Option.some_inj.mp hs0
      subst hs0'
      rw [get_or_create_sheet, hf]
      refine ⟨_, wbFind_modifySheet_self wb "UNKNOWN_BATEA" _ sE hf, ?_⟩
      exact writeFold_mem_row (get_header_map sE 4) ls dr sE hdrls

def exWbC4 : Workbook := [("TEMPLATE", blankSheet)]

def exDrC4 : DataRow := [("BATEA", "   ")]

theorem empty_key_dropped_vs_sentinel_witness :
    pyStrip (drGet exDrC4 "BATEA" "") = "" ∧
    (updateStep exWbC4 exDrC4 = exWbC4 ∧
     createKey exDrC4 = "UNKNOWN_BATEA" ∧
     (exDrC4 ∈ [exDrC4] → exDrC4 ∈ groupRows (groupByBatea [exDrC4]) "UNKNOWN_BATEA") ∧
     (∀ plantilla : Workbook, createRun plantilla [exDrC4] =
       (groupByBatea [exDrC4]).foldl createStep (createInit plantilla)) ∧
     (∀ (s0 : Sheet) (ls : List DataRow),
       updateTargetSheet exWbC4 "UNKNOWN_BATEA" = some s0 → exDrC4 ∈ ls →
       ∃ sU, wbFind (createStep exWbC4 ("UNKNOWN_BATEA", ls)) "UNKNOWN_BATEA" = some sU ∧
         ∃ k, k < ls.length ∧ ∀ c, sU.cells (5 + k) c =
           writtenRowCells (get_header_map s0 4) exDrC4 c)) :=
  ⟨by decide, empty_key_dropped_vs_sentinel exWbC4 exDrC4 [exDrC4] (by decide)⟩

/-! ### Sheet-name inventory lemmas for claim C2 -/

theorem mem_of_wbFind_some (wb : Workbook) (key : String) (s : Sheet)
    (h : wbFind wb key = some s) : key ∈ wb.map Prod.fst := by
  by_contra hmem
  rw [← wbFind_eq_none_iff] at hmem
  rw [hmem] at h
  exact Option.noConfusion h

theorem names_createStep (wb : Workbook) (g : String × List DataRow) :
    (createStep wb g).map Prod.fst =
      if g.1 ∈ wb.map Prod.fst then wb.map Prod.fst
      else if "TEMPLATE" ∈ wb.map Prod.fst then wb.map Prod.fst ++ [g.1]
      else wb.map Prod.fst := by
  rw [createStep]
  rcases hf : wbFind wb g.1 with _ | sh
  · rcases ht : wbFind wb "TEMPLATE" with _ | tsh
    · rw [get_or_create_sheet, hf, ht]
      rw [if_neg ((wbFind_eq_none_iff wb g.1).mp hf),
        if_neg ((wbFind_eq_none_iff wb "TEMPLATE").mp ht)]
    · rw [get_or_create_sheet, hf, ht]
      simp only
      rw [names_modifySheet, List.map_append,
        if_neg ((wbFind_eq_none_iff wb g.1).mp hf),
        if_pos (mem_of_wbFind_some wb "TEMPLATE" tsh ht)]
      rfl
  · rw [get_or_create_sheet, hf]
    simp only
    rw [names_modifySheet, if_pos (mem_of_wbFind_some wb g.1 sh hf)]

theorem nodup_append_single (l : List String) (a : String) (h : l.Nodup) (ha : a ∉ l) :
    (l ++ [a]).Nodup := by
  induction l with
  | nil => simp
  | cons b l ih =>
    simp only [List.nodup_cons] at h
    simp only [List.cons_append, List.nodup_cons]
    refine ⟨?_, ih h.2 (fun hm => ha (List.mem_cons_of_mem _ hm))⟩
    rw [List.mem_append]
    rintro (hm | hm)
    · exact h.1 hm
    · rw [List.mem_singleton] at hm
      subst hm
      exact ha (List.mem_cons_self _ _)

theorem createFold_names (gs : List (String × List DataRow)) :
    ∀ wb : Workbook, "TEMPLATE" ∈ wb.map Prod.fst → (wb.map Prod.fst).Nodup →
      ((gs.foldl createStep wb).map Prod.fst).Nodup ∧
      "TEMPLATE" ∈ (gs.foldl createStep wb).map Prod.fst ∧
      (∀ n ∈ wb.map Prod.fst, n ∈ (gs.foldl createStep wb).map Prod.fst) ∧
      (∀ g ∈ gs, g.1 ∈ (gs.foldl createStep wb).map Prod.fst) := by
  induction gs with
  | nil =>
    intro wb hT hnd
    exact ⟨hnd, hT, fun n hn => hn, fun g hg => absurd hg (List.not_mem_nil g)⟩
  | cons g gs ih =>
    intro wb hT hnd
    rw [List.foldl_cons]
    have hnames := names_createStep wb g
    by_cases h1 : g.1 ∈ wb.map Prod.fst
    · rw [if_pos h1] at hnames
      have step := ih (createStep wb g) (hnames ▸ hT) (hnames ▸ hnd)
      refine ⟨step.1, step.2.1, ?_, ?_⟩
      · intro n hn
        exact step.2.2.1 n (hnames ▸ hn)
      · intro g' hg'
        rcases List.mem_cons.mp hg' with h2 | h2
        · subst h2
          exact step.2.2.1 g'.1 (hnames ▸ h1)
        · exact step.2.2.2 g' h2
    · rw [if_neg h1, if_pos hT] at hnames
      have hT' : "TEMPLATE" ∈ (createStep wb g).map Prod.fst := by
        rw [hnames]
        exact List.mem_append_left _ hT
      have hnd' : ((createStep wb g).map Prod.fst).Nodup := by
        rw [hnames]
        exact nodup_append_single _ _ hnd h1
      have step := ih (createStep wb g) hT' hnd'
      refine ⟨step.1, step.2.1, ?_, ?_⟩
      · intro n hn
        exact step.2.2.1 n (by rw [hnames]; exact List.mem_append_left _ hn)
      · intro g' hg'
        rcases List.mem_cons.mp hg' with h2 | h2
        · subst h2
          refine step.2.2.1 g'.1 ?_
          rw [hnames]
          exact List.mem_append_right _ (List.mem_singleton_self _)
        · exact step.2.2.2 g' h2

theorem names_finalize (wb : Workbook) :
    (finalize wb).map Prod.fst = (wb.map Prod.fst).eraseP (fun n => n == "TEMPLATE") := by
  induction wb with
  | nil => rfl
  | cons p rest ih =>
    rcases p with ⟨n, sh⟩
    rw [finalize, List.map_cons, List.eraseP_cons, List.eraseP_cons]
    rcases hb : (n == "TEMPLATE") with _ | _
    · simp only [cond_false, List.map_cons]
      rw [finalize] at ih
      rw [ih]
    · simp only [cond_true]

theorem not_mem_eraseP_template (l : List String) (h : l.Nodup) :
    "TEMPLATE" ∉ l.eraseP (fun n => n == "TEMPLATE") := by
  induction l with
  | nil => simp
  | cons a l ih =>
    simp only [List.nodup_cons] at h
    rw [List.eraseP_cons]
    rcases hb : (a == "TEMPLATE") with _ | _
    · simp only [cond_false]
      rw [List.mem_cons]
      rintro (h1 | h1)
      · rw [beq_eq_false_iff_ne] at hb
        exact hb h1.symm
      · exact ih h.2 h1
    · simp only [cond_true]
      rw [beq_iff_eq] at hb
      subst hb
      exact h.1

theorem count_eraseP_template (l : List String) (k : String) (hk : k ≠ "TEMPLATE") :
    (l.eraseP (fun n => n == "TEMPLATE")).count k = l.count k := by
  induction l with
  | nil => rfl
  | cons a l ih =>
    rw [List.eraseP_cons]
    rcases hb : (a == "TEMPLATE") with _ | _
    · simp only [cond_false]
      rw [List.count_cons, List.count_cons, ih]
    · simp only [cond_true]
      rw [beq_iff_eq] at hb
      subst hb
      rw [List.count_cons_of_ne hk]

theorem keys_appendToGroup (gs : List (String × List DataRow)) (k : String) (dr : DataRow) :
    ∀ k', k' ∈ (appendToGroup gs k dr).map Prod.fst ↔ k' = k ∨ k' ∈ gs.map Prod.fst := by
  induction gs with
  | nil => intro k'; simp [appendToGroup]
  | cons p rest ih =>
    rcases p with ⟨k0, l⟩
    intro k'
    rw [appendToGroup]
    by_cases h0 : k0 = k
    · rw [if_pos h0]
      subst h0
      simp only [List.map_cons, List.mem_cons]
      tauto
    · rw [if_neg h0]
      simp only [List.map_cons, List.mem_cons, ih]
      tauto

theorem keys_groupFold (rows : List DataRow) :
    ∀ (gs : List (String × List DataRow)) (k : String),
      k ∈ ((rows.foldl (fun gs dr => appendToGroup gs (createKey dr) dr) gs).map Prod.fst) ↔
        k ∈ gs.map Prod.fst ∨ ∃ dr ∈ rows, createKey dr = k := by
  induction rows with
  | nil => intro gs k; simp
  | cons r rows ih =>
    intro gs k
    rw [List.foldl_cons, ih, keys_appendToGroup]
    simp only [List.mem_cons]
    constructor
    · rintro ((h | h) | h)
      · exact Or.inr ⟨r, Or.inl rfl, h.symm⟩
      · exact Or.inl h
      · rcases h with ⟨dr, hdr, hk⟩
        exact Or.inr ⟨dr, Or.inr hdr, hk⟩
    · rintro (h | ⟨dr, (hdr | hdr), hk⟩)
      · exact Or.inl (Or.inr h)
      · subst hdr
        exact Or.inl (Or.inl hk.symm)
      · exact Or.inr ⟨dr, hdr, hk⟩

theorem keys_groupByBatea (rows : List DataRow) (k : String) :
    k ∈ (groupByBatea rows).map Prod.fst ↔ ∃ dr ∈ rows, createKey dr = k := by
  rw [groupByBatea, keys_groupFold]
  simp

theorem names_updateStep_nodup (wb : Workbook) (dr : DataRow)
    (h : (wb.map Prod.fst).Nodup) : ((updateStep wb dr).map Prod.fst).Nodup := by
  rw [updateStep]
  by_cases hb : pyStrip (drGet dr "BATEA" "") = ""
  · simp only [hb]
    rw [if_pos trivial]
    exact h
  · simp only [if_neg hb]
    rcases hf : wbFind wb (pyStrip (drGet dr "BATEA" "")) with _ | sh
    · rcases ht : wbFind wb "TEMPLATE" with _ | tsh
      · rw [get_or_create_sheet, hf, ht]
        exact h
      · rw [get_or_create_sheet, hf, ht]
        simp only
        rw [names_modifySheet, List.map_append]
        exact nodup_append_single _ _ h ((wbFind_eq_none_iff _ _).mp hf)
    · rw [get_or_create_sheet, hf]
      simp only
      rw [names_modifySheet]
      exact h

theorem names_updateRun_nodup (rows : List DataRow) :
    ∀ wb : Workbook, (wb.map Prod.fst).Nodup →
      ((updateRun wb rows).map Prod.fst).Nodup := by
  induction rows with
  | nil => intro wb h; exact h
  | cons r rows ih =>
    intro wb h
    rw [updateRun, List.foldl_cons]
    exact ih (updateStep wb r) (names_updateStep_nodup wb r h)

/-! ### Claim C2: counterexample and amended statement -/

def c2Plantilla : Workbook := [("Hoja1", blankSheet)]

def c2Row : DataRow := [("BATEA", "TEMPLATE")]

/-- C2 counterexample: in a create-mode run whose single extracted row has
the category key TEMPLATE, that distinct key names no sheet in the saved
workbook (the terminal template deletion removed it), refuting the claim
that every distinct category key found across the rows has exactly one
sheet. -/
theorem create_template_key_loses_sheet :
    createKey c2Row = "TEMPLATE" ∧
    "TEMPLATE" ∈ (groupByBatea [c2Row]).map Prod.fst ∧
    ((finalize (createRun c2Plantilla [c2Row])).map Prod.fst).count "TEMPLATE" = 0 := by
  refine ⟨by decide, by decide, ?_⟩
  rfl

/-- C2 (amended): the sheet named TEMPLATE is deleted before the save in
both modes (given the openpyxl invariant of unique sheet titles), so it
never appears in the delivered workbook; and in create mode every distinct
category key found across the extracted rows — except a key equal to the
reserved name TEMPLATE, whose sheet is deleted — names exactly one sheet
of the saved workbook. -/
theorem create_mode_sheet_inventory (plantilla : Workbook) (rows : List DataRow)
    (hne : plantilla ≠ [])
    (hnod : (plantilla.map Prod.fst).Nodup)
    (hnoT : "TEMPLATE" ∉ plantilla.map Prod.fst) :
    ("TEMPLATE" ∉ (finalize (createRun plantilla rows)).map Prod.fst) ∧
    (∀ (wbU : Workbook) (rowsU : List DataRow), ((wbU.map Prod.fst)).Nodup →
      "TEMPLATE" ∉ (finalize (updateRun wbU rowsU)).map Prod.fst) ∧
    (∀ k, k ∈ (groupByBatea rows).map Prod.fst ↔ ∃ dr ∈ rows, createKey dr = k) ∧
    (∀ k, k ∈ (groupByBatea rows).map Prod.fst → k ≠ "TEMPLATE" →
      ((finalize (createRun plantilla rows)).map Prod.fst).count k = 1) := by
  rcases plantilla with _ | ⟨p, rest⟩
  · exact absurd rfl hne
  · rcases p with ⟨n0, s0⟩
    have hT0 : "TEMPLATE" ∈ (createInit ((n0, s0) :: rest)).map Prod.fst := by
      rw [createInit, List.map_cons]
      exact List.mem_cons_self _ _
    have hnd0 : ((createInit ((n0, s0) :: rest)).map Prod.fst).Nodup := by
      rw [createInit, List.map_cons]
      rw [List.map_cons, List.nodup_cons] at hnod
      rw [List.map_cons, List.mem_cons] at hnoT
      push_neg at hnoT
      exact List.nodup_cons.mpr ⟨fun h => hnoT.2 h, hnod.2⟩
    obtain ⟨hndF, hTF, hsub, hkeys⟩ :=
      createFold_names (groupByBatea rows) (createInit ((n0, s0) :: rest)) hT0 hnd0
    refine ⟨?_, ?_, fun k => keys_groupByBatea rows k, ?_⟩
    · rw [createRun, names_finalize]
      exact not_mem_eraseP_template _ hndF
    · intro wbU rowsU hU
      rw [names_finalize]
      exact not_mem_eraseP_template _ (names_updateRun_nodup rowsU wbU hU)
    · intro k hk hkT
      obtain ⟨g, hg, hgk⟩ := List.mem_map.mp hk
      have hkF : k ∈ ((groupByBatea rows).foldl createStep
          (createInit ((n0, s0) :: rest))).map Prod.fst := hgk ▸ hkeys g hg
      have hcount := List.count_eq_one_of_mem hndF hkF
      rw [createRun, names_finalize, count_eraseP_template _ _ hkT]
      exact hcount

def exPlantC2 : Workbook := [("Hoja1", blankSheet)]

def exRowsC2 : List DataRow := [[("BATEA", "X")], [("BATEA", "X")], [("BATEA", "Y")]]

theorem create_mode_sheet_inventory_witness :
    (exPlantC2 ≠ [] ∧ (exPlantC2.map Prod.fst).Nodup ∧
     "TEMPLATE" ∉ exPlantC2.map Prod.fst) ∧
    (("TEMPLATE" ∉ (finalize (createRun exPlantC2 exRowsC2)).map Prod.fst) ∧
     (∀ (wbU : Workbook) (rowsU : List DataRow), ((wbU.map Prod.fst)).Nodup →
       "TEMPLATE" ∉ (finalize (updateRun wbU rowsU)).map Prod.fst) ∧
     (∀ k, k ∈ (groupByBatea exRowsC2).map Prod.fst ↔
        ∃ dr ∈ exRowsC2, createKey dr = k) ∧
     (∀ k, k ∈ (groupByBatea exRowsC2).map Prod.fst → k ≠ "TEMPLATE" →
       ((finalize (createRun exPlantC2 exRowsC2)).map Prod.fst).count k = 1)) :=
  ⟨⟨List.cons_ne_nil _ _, by decide, by decide⟩,
   create_mode_sheet_inventory exPlantC2 exRowsC2 (List.cons_ne_nil _ _)
     (by decide) (by decide)⟩

/-! ### Claim C1: update-mode writes stack below the header in reverse order

The key invariants: a sheet is well-formed (`SheetWF`) when every cell
beyond its recorded `maxCol` extent is the default empty cell (as in
openpyxl, where such cells do not exist); writing at row 5 never touches
header row 4 and only extends `maxCol`, so the header map recomputed from
the mutated sheet on each loop iteration never changes. -/

def SheetWF (s : Sheet) : Prop := ∀ r c, s.maxCol < c → s.cells r c = defaultCell

theorem SheetWF_insertRowAt (s : Sheet) (t : Nat) (hwf : SheetWF s) :
    SheetWF (insertRowAt s t) := by
  intro r c hc
  rw [insertRowAt_cells]
  by_cases h1 : r < t
  · rw [if_pos h1]
    exact hwf r c hc
  · rw [if_neg h1]
    by_cases h2 : r = t
    · rw [if_pos h2]
    · rw [if_neg h2]
      exact hwf (r - 1) c hc

theorem SheetWF_mapCellAt (s : Sheet) (r0 c0 : Nat) (f : Cell → Cell) (hwf : SheetWF s) :
    SheetWF (mapCellAt s r0 c0 f) := by
  intro r c hc
  have hc' : max s.maxCol c0 < c := hc
  rw [mapCellAt_cells, if_neg]
  · exact hwf r c (by omega)
  · rintro ⟨_, h2⟩
    omega

theorem SheetWF_applyBorders (t : Nat) (cols : List Nat) :
    ∀ s : Sheet, SheetWF s → SheetWF (applyBorders t cols s) := by
  induction cols with
  | nil => intro s h; exact h
  | cons c0 cs ih =>
    intro s h
    rw [applyBorders, List.foldl_cons]
    have step := ih (setBorderCell s t c0) (SheetWF_mapCellAt s t c0 _ h)
    rw [applyBorders] at step
    exact step

theorem SheetWF_writeFields (dr : DataRow) (hm : List (String × Nat)) (t : Nat)
    (fs : List (String × String)) :
    ∀ s : Sheet, SheetWF s → SheetWF (writeFields dr hm t fs s) := by
  induction fs with
  | nil => intro s h; exact h
  | cons p fs ih =>
    intro s h
    rw [writeFields, List.foldl_cons]
    rcases hp : alookup hm p.2 with _ | col
    · have step := ih s h
      rw [writeFields] at step
      exact step
    · have step := ih (mapCellAt s t col (writeFieldCell dr p.1))
        (SheetWF_mapCellAt s t col _ h)
      rw [writeFields] at step
      exact step

theorem SheetWF_write (s : Sheet) (hm : List (String × Nat)) (dr : DataRow) (t : Nat)
    (hwf : SheetWF s) : SheetWF (write_data_to_sheet s hm dr t) := by
  rw [write_data_to_sheet]
  exact SheetWF_writeFields dr hm t field_to_header_map _
    (SheetWF_applyBorders t _ _ (SheetWF_insertRowAt s t hwf))

theorem maxCol_le_applyBorders (t : Nat) (cols : List Nat) :
    ∀ s : Sheet, s.maxCol ≤ (applyBorders t cols s).maxCol := by
  induction cols with
  | nil => intro s; exact Nat.le_refl _
  | cons c0 cs ih =>
    intro s
    rw [applyBorders, List.foldl_cons]
    have step := ih (setBorderCell s t c0)
    rw [applyBorders] at step
    refine Nat.le_trans ?_ step
    exact Nat.le_max_left _ _

theorem maxCol_le_writeFields (dr : DataRow) (hm : List (String × Nat)) (t : Nat)
    (fs : List (String × String)) :
    ∀ s : Sheet, s.maxCol ≤ (writeFields dr hm t fs s).maxCol := by
  induction fs with
  | nil => intro s; exact Nat.le_refl _
  | cons p fs ih =>
    intro s
    rw [writeFields, List.foldl_cons]
    rcases hp : alookup hm p.2 with _ | col
    · have step := ih s
      rw [writeFields] at step
      exact step
    · have step := ih (mapCellAt s t col (writeFieldCell dr p.1))
      rw [writeFields] at step
      refine Nat.le_trans ?_ step
      exact Nat.le_max_left _ _

theorem maxCol_le_write (s : Sheet) (hm : List (String × Nat)) (dr : DataRow) (t : Nat) :
    s.maxCol ≤ (write_data_to_sheet s hm dr t).maxCol := by
  rw [write_data_to_sheet]
  refine Nat.le_trans (maxCol_le_applyBorders t (List.range' 1 14) (insertRowAt s t))
    (maxCol_le_writeFields dr hm t field_to_header_map _)

theorem hdrFold_congr (hr : Nat) (s s' : Sheet)
    (hrow : ∀ c, s'.cells hr c = s.cells hr c) :
    ∀ (cols : List Nat) (acc : List (String × Nat)),
      cols.foldl (hdrStep s' hr) acc = cols.foldl (hdrStep s hr) acc := by
  intro cols
  induction cols with
  | nil => intro acc; rfl
  | cons c cs ih =>
    intro acc
    rw [List.foldl_cons, List.foldl_cons]
    rw [show hdrStep s' hr acc c = hdrStep s hr acc c from by rw [hdrStep, hdrStep, hrow]]
    exact ih _

theorem hdrFold_beyond (hr : Nat) (s : Sheet) (hwf : SheetWF s) :
    ∀ (d start : Nat), s.maxCol < start →
      ∀ acc, (List.range' start d).foldl (hdrStep s hr) acc = acc := by
  intro d
  induction d with
  | zero => intro start _ acc; rfl
  | succ d ih =>
    intro start hstart acc
    rw [List.range'_succ, List.foldl_cons]
    rw [show hdrStep s hr acc start = acc from by
      rw [hdrStep, hwf hr start hstart]
      rfl]
    exact ih (start + 1) (by omega) acc

theorem get_header_map_stable (s s' : Sheet) (hr : Nat)
    (hrow : ∀ c, s'.cells hr c = s.cells hr c)
    (hwf : SheetWF s) (hmax : s.maxCol ≤ s'.maxCol) :
    get_header_map s' hr = get_header_map s hr := by
  rw [get_header_map, get_header_map]
  rw [hdrFold_congr hr s s' hrow]
  have hsplit : s'.maxCol = (s'.maxCol - s.maxCol) + s.maxCol := by omega
  rw [hsplit, ← List.range'_append_1 1 s.maxCol (s'.maxCol - s.maxCol), List.foldl_append]
  exact hdrFold_beyond hr s hwf (s'.maxCol - s.maxCol) (1 + s.maxCol) (by omega) _

theorem get_header_map_write_stable (s : Sheet) (hm' : List (String × Nat))
    (dr : DataRow) (t : Nat) (ht : 4 < t) (hwf : SheetWF s) :
    get_header_map (write_data_to_sheet s hm' dr t) 4 = get_header_map s 4 := by
  refine get_header_map_stable s (write_data_to_sheet s hm' dr t) 4 ?_ hwf
    (maxCol_le_write s hm' dr t)
  intro c
  exact write_cells_below s hm' dr t 4 c ht

theorem updateStep_found (wb : Workbook) (dr : DataRow) (B : String) (s : Sheet)
    (hB : B ≠ "") (hkey : pyStrip (drGet dr "BATEA" "") = B)
    (hfind : wbFind wb B = some s) :
    updateStep wb dr =
      modifySheet wb B
        (fun sh => write_data_to_sheet sh (get_header_map sh 4) dr 5) := by
  rw [updateStep]
  simp only [hkey]
  rw [if_neg hB, get_or_create_sheet, hfind]

theorem updateStep_clone (wb : Workbook) (dr : DataRow) (B : String) (tsh : Sheet)
    (hB : B ≠ "") (hkey : pyStrip (drGet dr "BATEA" "") = B)
    (hnone : wbFind wb B = none) (hT : wbFind wb "TEMPLATE" = some tsh) :
    updateStep wb dr = updateStep (wb ++ [(B, tsh)]) dr := by
  rw [updateStep, updateStep]
  simp only [hkey]
  rw [if_neg hB, if_neg hB]
  rw [get_or_create_sheet, hnone, hT, get_or_create_sheet,
    wbFind_append_right wb B tsh hnone]

/-- The update-mode stacking invariant over a run of same-key rows,
relative to the sheet `s` the first write lands in. -/
theorem updateRun_stack (B : String) (hB : B ≠ "") (L : List DataRow) :
    ∀ (wb : Workbook) (s : Sheet),
      (∀ dr ∈ L, pyStrip (drGet dr "BATEA" "") = B) →
      wbFind wb B = some s → SheetWF s →
      ∃ sF, wbFind (updateRun wb L) B = some sF ∧
        (∀ k, k < L.length → ∀ c, sF.cells (5 + k) c =
          writtenRowCells (get_header_map s 4) (L.getD (L.length - 1 - k) []) c) ∧
        (∀ r, 5 ≤ r → ∀ c, sF.cells (r + L.length) c = s.cells r c) ∧
        (∀ r, r < 5 → ∀ c, sF.cells r c = s.cells r c) ∧
        get_header_map sF 4 = get_header_map s 4 ∧ SheetWF sF := by
  induction L with
  | nil =>
    intro wb s hall hfind hwf
    refine ⟨s, hfind, ?_, ?_, ?_, rfl, hwf⟩
    · intro k hk
      rw [List.length_nil] at hk
      exact absurd hk (by omega)
    · intro r _ c
      rfl
    · intro r _ c
      rfl
  | cons dr L ih =>
    intro wb s hall hfind hwf
    have hkey : pyStrip (drGet dr "BATEA" "") = B := hall dr (List.mem_cons_self _ _)
    have hstep := updateStep_found wb dr B s hB hkey hfind
    set s1 := write_data_to_sheet s (get_header_map s 4) dr 5 with hs1
    have hfind1 : wbFind (updateStep wb dr) B = some s1 := by
      rw [hstep]
      exact wbFind_modifySheet_self wb B _ s hfind
    have hwf1 : SheetWF s1 := SheetWF_write s _ dr 5 hwf
    have hhm1 : get_header_map s1 4 = get_header_map s 4 :=
      get_header_map_write_stable s _ dr 5 (by omega) hwf
    have hrun : updateRun wb (dr :: L) = updateRun (updateStep wb dr) L := by
      rw [updateRun, updateRun, List.foldl_cons]
    obtain ⟨sF, h1, h2, h3, h4, h5, h6⟩ :=
      ih (updateStep wb dr) s1 (fun d hd => hall d (List.mem_cons_of_mem _ hd)) hfind1 hwf1
    rw [hrun]
    refine ⟨sF, h1, ?_, ?_, ?_, ?_, h6⟩
    · intro k hk c
      simp only [List.length_cons] at hk
      by_cases hkL : k < L.length
      · have := h2 k hkL c
        rw [hhm1] at this
        rw [this]
        have hidx : (dr :: L).getD (L.length + 1 - 1 - k) [] =
            L.getD (L.length - 1 - k) [] := by
          have : L.length + 1 - 1 - k = (L.length - 1 - k) + 1 := by omega
          rw [this, List.getD_cons_succ]
        rw [List.length_cons, hidx]
      · have hkeq : k = L.length := by omega
        subst hkeq
        have := h3 5 (by omega) c
        rw [this, hs1, write_cells_target]
        have hidx : (dr :: L).getD (L.length + 1 - 1 - L.length) [] = dr := by
          have : L.length + 1 - 1 - L.length = 0 := by omega
          rw [this]
          rfl
        rw [List.length_cons, hidx]
    · intro r hr c
      rw [List.length_cons, show r + (L.length + 1) = (r + 1) + L.length from by omega]
      rw [h3 (r + 1) (by omega) c, hs1, write_cells_shift s _ dr 5 r c hr]
    · intro r hr c
      rw [h4 r hr c, hs1, write_cells_below s _ dr 5 r c hr]
    · rw [h5, hhm1]

/-- C1: in update mode, writing N extracted rows that share one non-empty
category key inserts each row at the fixed index 5, immediately below the
header row 4 (rows 1-4 of the target sheet are untouched and all prior
rows from 5 on are pushed down by N), so the run leaves the N rows in
rows 5..4+N in reverse order of input, each row carrying the thin black
border on columns 1 through 14. -/
theorem update_rows_stack_in_reverse (wb : Workbook) (L : List DataRow) (B : String)
    (s0 : Sheet)
    (hB : B ≠ "") (hL : L ≠ [])
    (hall : ∀ dr ∈ L, pyStrip (drGet dr "BATEA" "") = B)
    (hs0 : updateTargetSheet wb B = some s0)
    (hwf : SheetWF s0) :
    ∃ sF, wbFind (updateRun wb L) B = some sF ∧
      (∀ k, k < L.length → ∀ c, sF.cells (5 + k) c =
        writtenRowCells (get_header_map s0 4) (L.getD (L.length - 1 - k) []) c) ∧
      (∀ k, k < L.length → ∀ c, 1 ≤ c → c ≤ 14 →
        (sF.cells (5 + k) c).border = some thinBorder) ∧
      (∀ r, 5 ≤ r → ∀ c, sF.cells (r + L.length) c = s0.cells r c) ∧
      (∀ r, r < 5 → ∀ c, sF.cells r c = s0.cells r c) := by
  have main : ∃ sF, wbFind (updateRun wb L) B = some sF ∧
      (∀ k, k < L.length → ∀ c, sF.cells (5 + k) c =
        writtenRowCells (get_header_map s0 4) (L.getD (L.length - 1 - k) []) c) ∧
      (∀ r, 5 ≤ r → ∀ c, sF.cells (r + L.length) c = s0.cells r c) ∧
      (∀ r, r < 5 → ∀ c, sF.cells r c = s0.cells r c) := by
    rcases hf : wbFind wb B with _ | s
    · -- clone case: the first write targets a fresh copy of the template
      rw [updateTargetSheet, hf] at hs0
      rcases L with _ | ⟨dr, L'⟩
      · exact absurd rfl hL
      · have hkey : pyStrip (drGet dr "BATEA" "") = B :=
          hall dr (List.mem_cons_self _ _)
        have hred : updateRun wb (dr :: L') = updateRun (wb ++ [(B, s0)]) (dr :: L') := by
          rw [updateRun, updateRun, List.foldl_cons, List.foldl_cons,
            updateStep_clone wb dr B s0 hB hkey hf hs0]
        rw [hred]
        obtain ⟨sF, h1, h2, h3, h4, _, _⟩ :=
          updateRun_stack B hB (dr :: L') (wb ++ [(B, s0)]) s0 hall
            (wbFind_append_right wb B s0 hf) hwf
        exact ⟨sF, h1, h2, h3, h4⟩
    · rw [updateTargetSheet, hf, Option.some_inj] at hs0
      subst hs0
      obtain ⟨sF, h1, h2, h3, h4, _, _⟩ :=
        updateRun_stack B hB L wb s hall hf hwf
      exact ⟨sF, h1, h2, h3, h4⟩
  obtain ⟨sF, h1, h2, h3, h4⟩ := main
  refine ⟨sF, h1, h2, ?_, h3, h4⟩
  intro k hk c hc1 hc2
  rw [h2 k hk c]
  exact writtenRowCells_border _ _ c hc1 hc2

def exHdrSheet : Sheet :=
  { cells := fun r c =>
      if r = 4 ∧ c = 1 then ⟨CellValue.vstr "FECHA", none, none⟩
      else ⟨CellValue.vnone, none, none⟩
    maxCol := 1 }

theorem exHdrSheet_wf : SheetWF exHdrSheet := by
  intro r c hc
  have hc' : 1 < c := hc
  show (if r = 4 ∧ c = 1 then Cell.mk (CellValue.vstr "FECHA") none none
    else Cell.mk CellValue.vnone none none) = defaultCell
  rw [if_neg]
  · rfl
  · rintro ⟨_, h1⟩
    omega

def exRowC1a : DataRow := [("BATEA", "X"), ("FECHA", "1.5")]

def exRowC1b : DataRow := [("BATEA", "X"), ("FECHA", "abc")]

def exWbC1 : Workbook := [("X", exHdrSheet)]

def exRowsC1 : List DataRow := [exRowC1a, exRowC1b]

theorem update_rows_stack_in_reverse_witness :
    (("X" : String) ≠ "" ∧ exRowsC1 ≠ [] ∧
     (∀ dr ∈ exRowsC1, pyStrip (drGet dr "BATEA" "") = "X") ∧
     updateTargetSheet exWbC1 "X" = some exHdrSheet ∧ SheetWF exHdrSheet) ∧
    (∃ sF, wbFind (updateRun exWbC1 exRowsC1) "X" = some sF ∧
      (∀ k, k < exRowsC1.length → ∀ c, sF.cells (5 + k) c =
        writtenRowCells (get_header_map exHdrSheet 4)
          (exRowsC1.getD (exRowsC1.length - 1 - k) []) c) ∧
      (∀ k, k < exRowsC1.length → ∀ c, 1 ≤ c → c ≤ 14 →
        (sF.cells (5 + k) c).border = some thinBorder) ∧
      (∀ r, 5 ≤ r → ∀ c, sF.cells (r + exRowsC1.length) c = exHdrSheet.cells r c) ∧
      (∀ r, r < 5 → ∀ c, sF.cells r c = exHdrSheet.cells r c)) :=
  ⟨⟨by decide, List.cons_ne_nil _ _, by decide, rfl, exHdrSheet_wf⟩,
   update_rows_stack_in_reverse exWbC1 exRowsC1 "X" exHdrSheet (by decide)
     (List.cons_ne_nil _ _) (by decide) rfl exHdrSheet_wf⟩

/-! ### Claim C3: the update-mode backup (code_base.py lines 306-337, 464-478)

The effectful spine of update mode is modelled as an event trace over an
environment saying which I/O operations raise: the backup block
(lines 317-337, whose exception handler only warns and continues), the
workbook load (339-351, fatal on failure), the TEMPLATE-sheet rebuild
(353-383, fatal on failure), the row-writing loop (385-403, whose
workbook-level semantics is `updateRun`), and the save (465-478).  Paths
are bare file names joined with a forward slash. -/

structure PyDateTime where
  year : Nat
  month : Nat
  day : Nat
  hour : Nat
  minute : Nat
  second : Nat
deriving DecidableEq

def pad2 (n : Nat) : String :=
  if n < 10 then "0" ++ natToDecString n else natToDecString n

/-- `now.strftime("%Y-%m-%d_%H%M%S")` (line 323): a second-resolution
timestamp. -/
def strftimeTS (t : PyDateTime) : String :=
  natToDecString t.year ++ "-" ++ pad2 t.month ++ "-" ++ pad2 t.day ++ "_" ++
    pad2 t.hour ++ pad2 t.minute ++ pad2 t.second

def lastDotIdx (cs : List Char) : Option Nat :=
  match cs.reverse.findIdx? (fun c => c == '.') with
  | none => none
  | some j => some (cs.length - 1 - j)

/-- `os.path.splitext` on a bare file name: the extension starts at the
last dot, provided some earlier character of the name is not a dot. -/
def pySplitext (s : String) : String × String :=
  match lastDotIdx s.data with
  | none => (s, "")
  | some i =>
    if (s.data.take i).any (fun c => !(c == '.')) then
      (String.mk (s.data.take i), String.mk (s.data.drop i))
    else (s, "")

/-- Lines 307-308: force a .xlsx extension on the entered output name
(case-insensitive check). -/
def normalizeOutputName (s : String) : String :=
  if ".xlsx".data.isSuffixOf (s.data.map Char.toLower) then s else s ++ ".xlsx"

/-- Lines 318-331: the backup file path
`.old/base_name_timestamp extension`. -/
def backupPath (output : String) (now : PyDateTime) : String :=
  ".old/" ++ (pySplitext output).1 ++ "_" ++ strftimeTS now ++ (pySplitext output).2

inductive RunEvent where
  | backupCreated (path : String)
  | workbookLoaded
  | rowsWritten
  | saved (path : String)
  | saveFailed
  | aborted
deriving DecidableEq

structure UpdateEnv where
  now : PyDateTime
  backupRaises : Bool
  loadRaises : Bool
  templateRebuildRaises : Bool
  saveRaises : Bool

/-- The event trace of an update-mode run (output file exists), following
the control flow of `main`: backup attempt first — continuing with only a
warning if it raises — then load, template rebuild if needed, row writes,
and the save attempt, whose failure is reported but not fatal. -/
def updateModeTrace (env : UpdateEnv) (output : String) : List RunEvent :=
  (if env.backupRaises then []
   else [RunEvent.backupCreated (backupPath output env.now)]) ++
  (if env.loadRaises then [RunEvent.aborted]
   else
     [RunEvent.workbookLoaded] ++
     (if env.templateRebuildRaises then [RunEvent.aborted]
      else
        [RunEvent.rowsWritten] ++
        (if env.saveRaises then [RunEvent.saveFailed] else [RunEvent.saved output])))

def isBackupEv : RunEvent → Bool
  | RunEvent.backupCreated _ => true
  | _ => false

/-- C3 (amended): in every update-mode run whose backup copy itself
succeeds, the very first action of the run — before the workbook is
loaded, written to or saved — creates exactly one backup, in the .old
subdirectory with the second-resolution timestamp suffix, and this holds
whether or not the subsequent save fails; a backup copy that fails is
only warned about and the run continues with no backup at all. -/
theorem update_backup_first_and_unique (env : UpdateEnv) (output : String)
    (h : env.backupRaises = false) :
    (updateModeTrace env output).head? =
      some (RunEvent.backupCreated (backupPath output env.now)) ∧
    (updateModeTrace env output).countP isBackupEv = 1 ∧
    backupPath "datos.xlsx" ⟨2026, 10, 12, 9, 5, 3⟩ =
      ".old/datos_2026-10-12_090503.xlsx" := by
  refine ⟨?_, ?_, by decide⟩
  · rw [updateModeTrace, h]
    simp
  · rw [updateModeTrace, h]
    cases hl : env.loadRaises <;> cases ht : env.templateRebuildRaises <;>
      cases hs : env.saveRaises <;>
        simp [isBackupEv, List.countP_append, List.countP_cons]

def c3Env : UpdateEnv :=
  { now := ⟨2026, 10, 12, 9, 5, 3⟩
    backupRaises := true
    loadRaises := false
    templateRebuildRaises := false
    saveRaises := false }

/-- C3 counterexample: an update-mode run in which the backup copy raises
(and is, per lines 334-336, only warned about) continues to load, mutate
and save the workbook with no backup at all — refuting the claim that
every update-mode run against an existing output produces exactly one
backup before any mutation. -/
theorem update_backup_missing_counterexample :
    updateModeTrace c3Env "datos.xlsx" =
      [RunEvent.workbookLoaded, RunEvent.rowsWritten, RunEvent.saved "datos.xlsx"] ∧
    (updateModeTrace c3Env "datos.xlsx").countP isBackupEv = 0 :=
  ⟨rfl, rfl⟩

def c3EnvW : UpdateEnv :=
  { now := ⟨2026, 10, 12, 9, 5, 3⟩
    backupRaises := false
    loadRaises := false
    templateRebuildRaises := false
    saveRaises := true }

theorem update_backup_first_and_unique_witness :
    c3EnvW.backupRaises = false ∧
    ((updateModeTrace c3EnvW "datos.xlsx").head? =
      some (RunEvent.backupCreated (backupPath "datos.xlsx" c3EnvW.now)) ∧
     (updateModeTrace c3EnvW "datos.xlsx").countP isBackupEv = 1 ∧
     backupPath "datos.xlsx" ⟨2026, 10, 12, 9, 5, 3⟩ =
       ".old/datos_2026-10-12_090503.xlsx") :=
  ⟨rfl, update_backup_first_and_unique c3EnvW "datos.xlsx" rfl⟩

end PdfExcel
